import Mathlib

/-!
Shallow embedding of the Bomberman game (TypeScript sources) in Lean 4.

Embedded modules:
* `constants.ts`  — numeric game constants.
* `types.ts`      — tile types, directions, grid points, A* path nodes.
* `services/aiService.ts` — Manhattan heuristic, walkability, A* `findPath`.
* `services/gameEngine.ts` — bombs, explosions, player, the per-tick update
  phases relevant to the verified claims.

Conventions of the embedding:
* JS `number` is modelled as `Int` where the code only ever holds integers
  (grid coordinates, scores, lives, hit points) and as `Rat` where fractional
  values flow (pixel positions, timers, `dt`).
* JS arrays are `List`s; `Array.prototype.push` appends at the end.
* The JS `Set<string>` of visited cells keyed by `"x,y"` is modelled as a
  list of coordinate pairs with idempotent insertion (same membership
  semantics, the string encoding of a pair being injective).
* `Math.random()` driven behaviour (power-up spawning, entity ids) is
  abstracted into explicit oracle parameters; every theorem is universally
  quantified over the oracle.
* The mutable 2-D tile array `grid: number[][]` is modelled as a total
  function `Int → Int → TileType`; every access in the source is guarded by
  a bounds check, so the functional view is faithful.
-/

namespace Bomberman

/-! ## constants.ts -/

def TILE_SIZE : Int := 48
def GRID_ROWS : Int := 13
def GRID_COLS : Int := 15
def BOMB_TIMER_MS : Rat := 2000
def EXPLOSION_DURATION_MS : Rat := 600
def INVULNERABILITY_MS : Rat := 2500
def PLAYER_SPEED_BASE : Rat := 5

/-! ## types.ts -/

inductive Direction where
  | UP | DOWN | LEFT | RIGHT | NONE
deriving DecidableEq, Repr

inductive TileType where
  | EMPTY | WALL_HARD | WALL_SOFT
deriving DecidableEq, Repr

inductive PowerUpType where
  | BOMB_UP | FIRE_UP | SPEED_UP | SUPER_BOMB | TIME_BONUS
deriving DecidableEq, Repr

structure GridPoint where
  col : Int
  row : Int
deriving DecidableEq, Repr

/-- `grid: number[][]` viewed as a total function; the source always bounds
checks `0 ≤ row < GRID_ROWS`, `0 ≤ col < GRID_COLS` before indexing. -/
def Grid : Type := Int → Int → TileType

/-- Read access `grid[row][col]`. -/
def Grid.get (g : Grid) (row col : Int) : TileType := g row col

/-- Write access `grid[row][col] = t`. -/
def Grid.set (g : Grid) (row col : Int) (t : TileType) : Grid :=
  fun r c => if r = row ∧ c = col then t else g r c

/-- Minimal A* node (`PathNode` in types.ts); the `parent` pointer chain is
embedded structurally. In the source a node's `parent` always refers to an
already-closed node, which is never mutated again, so copying the chain is
faithful. -/
inductive PathNode where
  | mk (x y : Int) (g h f : Nat) (parent : Option PathNode)

instance : Inhabited PathNode := ⟨.mk 0 0 0 0 0 none⟩

def PathNode.x : PathNode → Int | .mk x _ _ _ _ _ => x
def PathNode.y : PathNode → Int | .mk _ y _ _ _ _ => y
def PathNode.g : PathNode → Nat | .mk _ _ g _ _ _ => g
def PathNode.h : PathNode → Nat | .mk _ _ _ h _ _ => h
def PathNode.f : PathNode → Nat | .mk _ _ _ _ f _ => f
def PathNode.parent : PathNode → Option PathNode | .mk _ _ _ _ _ p => p

/-! ## services/aiService.ts -/

/-- Manhattan distance heuristic. -/
def heuristic (a b : GridPoint) : Nat :=
  (a.col - b.col).natAbs + (a.row - b.row).natAbs

/-- Check if a tile is walkable: in bounds, `EMPTY`, and (unless
`ignoreBombs`) not occupied by a bomb. -/
def isWalkable (col row : Int) (grid : Grid) (bombs : List GridPoint)
    (ignoreBombs : Bool) : Bool :=
  if col < 0 ∨ GRID_COLS ≤ col ∨ row < 0 ∨ GRID_ROWS ≤ row then false
  else if grid.get row col ≠ TileType.EMPTY then false
  else if ¬ignoreBombs ∧ bombs.any (fun b => b.col = col ∧ b.row = row) then false
  else true

/-- Index of the open-set node with the lowest `f`; scanning left to right
with a strict comparison, ties keep the earlier index. -/
def lowestFIndex (openSet : List PathNode) : Nat :=
  (List.range openSet.length).foldl
    (fun best i => if (openSet.get! i).f < (openSet.get! best).f then i else best) 0

/-- Walk the `parent` chain, collecting cells from the current node back to
the start (the source pushes into `path` then reverses). -/
def reconstruct : PathNode → List GridPoint
  | .mk x y _ _ _ none => [⟨x, y⟩]
  | .mk x y _ _ _ (some p) => ⟨x, y⟩ :: reconstruct p

/-- `Set.add` on the closed set (membership-faithful model of the JS
`Set<string>` keyed by `"x,y"`). -/
def closedAdd (s : List (Int × Int)) (p : Int × Int) : List (Int × Int) :=
  if p ∈ s then s else p :: s

/-- Replace the first open-set entry satisfying `p` (the node
`openSet.find` returned, mutated in place by the source). -/
def updateFirst (p : PathNode → Bool) (upd : PathNode → PathNode) :
    List PathNode → List PathNode
  | [] => []
  | n :: rest => if p n then upd n :: rest else n :: updateFirst p upd rest

def MAX_ITERATIONS : Nat := 500

/-- Process one neighbour offer inside the A* loop body. -/
def offerNeighbor (target : GridPoint) (grid : Grid) (bombs : List GridPoint)
    (closedSet : List (Int × Int)) (current : PathNode)
    (openSet : List PathNode) (n : Int × Int) : List PathNode :=
  if (n.1, n.2) ∈ closedSet then openSet
  else if ¬isWalkable n.1 n.2 grid bombs false then openSet
  else
    let gScore := current.g + 1
    match openSet.find? (fun m => m.x = n.1 ∧ m.y = n.2) with
    | none =>
        let h := heuristic ⟨n.1, n.2⟩ target
        openSet ++ [.mk n.1 n.2 gScore h (gScore + h) (some current)]
    | some existing =>
        if gScore < existing.g then
          updateFirst (fun m => m.x = n.1 ∧ m.y = n.2)
            (fun m => .mk m.x m.y gScore m.h (gScore + m.h) (some current)) openSet
        else openSet

/-- The A* `while (openSet.length > 0)` loop. `fuel` counts the remaining
permitted loop-body executions: it starts at `MAX_ITERATIONS` and the body
that would make `iterations > MAX_ITERATIONS` returns `null` instead. -/
def findPathLoop (target : GridPoint) (grid : Grid) (bombs : List GridPoint) :
    Nat → List PathNode → List (Int × Int) → Option (List GridPoint)
  | _, [], _ => none
  | 0, _ :: _, _ => none
  | fuel + 1, openSet@(_ :: _), closedSet =>
      let lowestIndex := lowestFIndex openSet
      let current := openSet.get! lowestIndex
      if current.x = target.col ∧ current.y = target.row then
        some (reconstruct current).reverse
      else
        let openSet' := openSet.eraseIdx lowestIndex
        let closedSet' := closedAdd closedSet (current.x, current.y)
        let neighbors : List (Int × Int) :=
          [(current.x + 1, current.y), (current.x - 1, current.y),
           (current.x, current.y + 1), (current.x, current.y - 1)]
        let openSet'' := neighbors.foldl
          (offerNeighbor target grid bombs closedSet' current) openSet'
        findPathLoop target grid bombs fuel openSet'' closedSet'

/-- A* path search (`findPath` in aiService.ts). -/
def findPath (start target : GridPoint) (grid : Grid)
    (bombs : List GridPoint := []) : Option (List GridPoint) :=
  let h0 := heuristic start target
  findPathLoop target grid bombs MAX_ITERATIONS
    [.mk start.col start.row 0 h0 h0 none] []

/-! ## services/gameEngine.ts — data model

Entity ids are produced by `Math.random()` in the source; they are opaque
tokens never inspected by game logic, modelled as caller-supplied numbers.
Power-up spawning inside `destroyBlock` is driven by `Math.random()`; it is
abstracted into an oracle `PowerUpOracle` deciding, per destroyed cell,
whether a power-up appears and which. Rendering, audio, input listeners and
the `setTimeout` respawn callback are not part of the state model. -/

structure Player where
  x : Rat
  y : Rat
  gridX : Int
  gridY : Int
  direction : Direction
  isMoving : Bool
  bombsCount : Int
  maxBombs : Int
  bombRange : Nat
  speed : Rat
  invulnerableUntil : Rat
  isDead : Bool
deriving DecidableEq, Repr

structure Bomb where
  id : Nat
  col : Int
  row : Int
  timer : Rat
  range : Nat
  ownerId : String
deriving DecidableEq, Repr, Inhabited

structure ExplCell where
  col : Int
  row : Int
  isEnd : Bool
  direction : Direction
deriving DecidableEq, Repr

structure Explosion where
  id : Nat
  center : GridPoint
  cells : List ExplCell
  timer : Rat
deriving DecidableEq, Repr

structure PowerUp where
  id : Nat
  col : Int
  row : Int
  type : PowerUpType
deriving DecidableEq, Repr

/-- Enemy fields read or written by the verified update phases (the
path-finding bookkeeping fields are engine-internal to `updateEnemyAI`,
which no claim quantifies over). -/
structure Enemy where
  id : Nat
  x : Rat
  y : Rat
  isBoss : Bool
  hp : Int
  maxHp : Int
  lastHitTime : Rat
  isDead : Bool
  speed : Rat
deriving DecidableEq, Repr

/-- Callbacks the engine fires into the React shell (`onGameOver` moves the
run state machine to `GAME_OVER`/`VICTORY`, `onLevelComplete` to
`LEVEL_COMPLETE`). -/
inductive GameEvent where
  | gameOver (victory : Bool)
  | levelComplete
deriving DecidableEq, Repr

structure EngineState where
  grid : Grid
  player : Player
  bombs : List Bomb
  explosions : List Explosion
  powerUps : List PowerUp
  enemies : List Enemy
  level : Int
  score : Int
  lives : Int
  gameTime : Int
  isGameOver : Bool
  isVictory : Bool
  isLevelTransitioning : Bool
  isLevelComplete : Bool
  events : List GameEvent

/-- Outcomes of the `Math.random()` rolls inside `destroyBlock`: for a
destroyed soft wall at a cell, either no power-up spawns or one of the five
kinds does. -/
def PowerUpOracle : Type := Int → Int → Option PowerUpType

/-! ## gameEngine.ts — killPlayer -/

/-- `killPlayer`. The `setTimeout` respawn branch (1 s later, off-tick) is
asynchronous and outside the per-tick state transition; only the immediate
effects are modelled. -/
def killPlayer (now : Rat) (st : EngineState) : EngineState :=
  if st.player.invulnerableUntil > now ∨ st.player.isDead then st
  else
    let st := { st with lives := st.lives - 1,
                        player := { st.player with isDead := true } }
    if st.lives ≤ 0 then
      { st with isGameOver := true, events := st.events ++ [.gameOver false] }
    else st

/-! ## gameEngine.ts — placeBomb -/

/-- The grid column the player's centre point falls in. -/
def playerCol (p : Player) : Int := ((p.x + (TILE_SIZE : Rat) / 2) / (TILE_SIZE : Rat)).floor

/-- The grid row the player's centre point falls in. -/
def playerRow (p : Player) : Int := ((p.y + (TILE_SIZE : Rat) / 2) / (TILE_SIZE : Rat)).floor

/-- `placeBomb`; `newId` stands for the `Math.random()` id. -/
def placeBomb (newId : Nat) (st : EngineState) : EngineState :=
  if st.player.maxBombs ≤ st.player.bombsCount then st
  else
    let col := playerCol st.player
    let row := playerRow st.player
    if st.bombs.any (fun b => b.col = col ∧ b.row = row) then st
    else
      { st with
        bombs := st.bombs ++
          [{ id := newId, col := col, row := row, timer := 2000,
             range := st.player.bombRange, ownerId := "player" }],
        player := { st.player with bombsCount := st.player.bombsCount + 1 } }

/-! ## gameEngine.ts — explodeBomb / destroyBlock -/

/-- The state a bomb blast threads through its four ray walks. -/
structure BlastAcc where
  grid : Grid
  bombs : List Bomb
  powerUps : List PowerUp
  score : Int
  cells : List ExplCell

/-- `destroyBlock`: clear the soft wall, award score, maybe spawn a
power-up (the `Math.random()` rolls decided by the oracle). -/
def destroyBlock (oracle : PowerUpOracle) (newId : Nat) (acc : BlastAcc)
    (col row : Int) : BlastAcc :=
  let acc := { acc with grid := acc.grid.set row col TileType.EMPTY,
                        score := acc.score + 10 }
  match oracle col row with
  | none => acc
  | some t => { acc with powerUps := acc.powerUps ++ [⟨newId, col, row, t⟩] }

/-- One blast ray: walk the remaining step indices (`i = 1..range`)
outward, stopping (`break`) at the grid edge, at a hard wall (excluded), at
the first bomb hit (its timer forced to `0`), or at the first soft wall
(included and destroyed). -/
def rayGo (oracle : PowerUpOracle) (newId : Nat) (bomb : Bomb)
    (dx dy : Int) (dir : Direction) : List Nat → BlastAcc → BlastAcc
  | [], acc => acc
  | i :: rest, acc =>
    let c := bomb.col + dx * i
    let r := bomb.row + dy * i
    if r < 0 ∨ GRID_ROWS ≤ r ∨ c < 0 ∨ GRID_COLS ≤ c then acc
    else
      let tile := acc.grid.get r c
      if tile = TileType.WALL_HARD then acc
      else
        let acc := { acc with
          cells := acc.cells ++ [(⟨c, r, decide (i = bomb.range), dir⟩ : ExplCell)] }
        match acc.bombs.findIdx? (fun b : Bomb => b.col = c ∧ b.row = r) with
        | some idx =>
            { acc with bombs :=
                acc.bombs.set idx { acc.bombs.get! idx with timer := 0 } }
        | none =>
            if tile = TileType.WALL_SOFT then destroyBlock oracle newId acc c r
            else rayGo oracle newId bomb dx dy dir rest acc

/-- The four cardinal directions, in the order the source iterates them. -/
def blastDirections : List (Int × Int × Direction) :=
  [(0, -1, .UP), (0, 1, .DOWN), (-1, 0, .LEFT), (1, 0, .RIGHT)]

/-- `explodeBomb`: pushes the origin cell, walks the four rays, then
appends the assembled explosion. -/
def explodeBomb (oracle : PowerUpOracle) (newId : Nat) (st : EngineState)
    (bomb : Bomb) : EngineState :=
  let acc0 : BlastAcc :=
    { grid := st.grid, bombs := st.bombs, powerUps := st.powerUps,
      score := st.score,
      cells := [⟨bomb.col, bomb.row, false, Direction.NONE⟩] }
  let acc := blastDirections.foldl
    (fun acc d => rayGo oracle newId bomb d.1 d.2.1 d.2.2
      (List.range' 1 bomb.range) acc) acc0
  { st with grid := acc.grid, bombs := acc.bombs, powerUps := acc.powerUps,
            score := acc.score,
            explosions := st.explosions ++
              [{ id := newId, center := ⟨bomb.col, bomb.row⟩,
                 cells := acc.cells, timer := EXPLOSION_DURATION_MS }] }

/-! ### Blast-ray vocabulary (for specifying `rayGo`) -/

/-- The column reached by a blast ray after `i` steps. -/
def rayCol (bomb : Bomb) (dx : Int) (i : Nat) : Int := bomb.col + dx * i

/-- The row reached by a blast ray after `i` steps. -/
def rayRow (bomb : Bomb) (dy : Int) (i : Nat) : Int := bomb.row + dy * i

/-- The in-bounds condition the ray walk tests before touching a cell. -/
def cellInBounds (c r : Int) : Prop :=
  ¬(r < 0 ∨ GRID_ROWS ≤ r ∨ c < 0 ∨ GRID_COLS ≤ c)

/-- A cell that does not stop a blast ray: in bounds, `EMPTY` tile, no
bomb on it. -/
def rayClear (grid : Grid) (bombs : List Bomb) (c r : Int) : Prop :=
  cellInBounds c r ∧ grid.get r c = TileType.EMPTY ∧
  bombs.findIdx? (fun b : Bomb => b.col = c ∧ b.row = r) = none

/-- The explosion cell the ray records at step `i`. -/
def rayCellOf (bomb : Bomb) (dx dy : Int) (dir : Direction) (i : Nat) : ExplCell :=
  ⟨rayCol bomb dx i, rayRow bomb dy i, decide (i = bomb.range), dir⟩

/-! ## gameEngine.ts — update, phase 3 (bombs) -/

/-- The `for (let i = this.bombs.length - 1; i >= 0; i--)` loop of update
phase 3: `go (i+1)` handles index `i` and recurses on `i`. A `splice` at
index `i` only shifts higher indices, all already handled, so the
countdown visits exactly the source's iteration sequence. -/
def updateBombsGo (oracle : PowerUpOracle) (newId : Nat) (dt : Rat) :
    Nat → EngineState → EngineState
  | 0, st => st
  | i + 1, st =>
    match st.bombs.get? i with
    | none => updateBombsGo oracle newId dt i st
    | some bomb =>
      let bomb := { bomb with timer := bomb.timer - dt }
      let st := { st with bombs := st.bombs.set i bomb }
      if bomb.timer ≤ 0 then
        let st := explodeBomb oracle newId st bomb
        let st := { st with bombs := st.bombs.eraseIdx i }
        let st :=
          if bomb.ownerId = "player" then
            { st with player :=
                { st.player with bombsCount := st.player.bombsCount - 1 } }
          else st
        updateBombsGo oracle newId dt i st
      else updateBombsGo oracle newId dt i st

/-- Update phase 3: tick every bomb's fuse down by `dt`, detonating and
removing the expired ones. -/
def updateBombs (oracle : PowerUpOracle) (newId : Nat) (dt : Rat)
    (st : EngineState) : EngineState :=
  updateBombsGo oracle newId dt st.bombs.length st

/-! ## gameEngine.ts — update, phase 4 (explosions) -/

/-- Grid column of an entity centre point `x`. -/
def centerCol (x : Rat) : Int := ((x + (TILE_SIZE : Rat) / 2) / (TILE_SIZE : Rat)).floor

/-- The inner `this.enemies.forEach` of the explosion damage phase, for one
explosion cell: each enemy whose centre cell matches takes a hit unless it
is a boss inside its 1000 ms grace window; a hit that empties `hp` marks
the enemy dead and awards score and bonus time. -/
def damageEnemies (now : Rat) (cell : ExplCell) :
    List Enemy → Int → Int → List Enemy × Int × Int
  | [], score, gameTime => ([], score, gameTime)
  | e :: rest, score, gameTime =>
    if centerCol e.x = cell.col ∧ centerCol e.y = cell.row ∧ ¬e.isDead then
      if e.isBoss ∧ now - e.lastHitTime < 1000 then
        let (rest', s', g') := damageEnemies now cell rest score gameTime
        (e :: rest', s', g')
      else
        let e : Enemy := { e with hp := e.hp - 1, lastHitTime := now }
        if e.hp ≤ 0 then
          let e : Enemy := { e with isDead := true }
          let (rest', s', g') := damageEnemies now cell rest
            (score + if e.isBoss then 500 else 100)
            (gameTime + if e.isBoss then 30 else 10)
          (e :: rest', s', g')
        else
          let (rest', s', g') := damageEnemies now cell rest score gameTime
          (e :: rest', s', g')
    else
      let (rest', s', g') := damageEnemies now cell rest score gameTime
      (e :: rest', s', g')

/-- The per-cell body of the explosion damage phase: kill the player if the
player's centre cell overlaps the cell, then damage matching enemies. -/
def cellDamage (now : Rat) (st : EngineState) (cell : ExplCell) : EngineState :=
  let st :=
    if playerCol st.player = cell.col ∧ playerRow st.player = cell.row then
      killPlayer now st
    else st
  let egt := damageEnemies now cell st.enemies st.score st.gameTime
  { st with enemies := egt.1, score := egt.2.1, gameTime := egt.2.2 }

/-- The `for (let i = this.explosions.length - 1; i >= 0; i--)` loop of
update phase 4: tick the explosion timer, apply damage on every cell,
remove the explosion once its timer runs out. -/
def updateExplosionsGo (now dt : Rat) : Nat → EngineState → EngineState
  | 0, st => st
  | i + 1, st =>
    match st.explosions.get? i with
    | none => updateExplosionsGo now dt i st
    | some exp =>
      let exp : Explosion := { exp with timer := exp.timer - dt }
      let st := { st with explosions := st.explosions.set i exp }
      let st := exp.cells.foldl (cellDamage now) st
      if exp.timer ≤ 0 then
        updateExplosionsGo now dt i
          { st with explosions := st.explosions.eraseIdx i }
      else updateExplosionsGo now dt i st

/-- Update phase 4. -/
def updateExplosions (now dt : Rat) (st : EngineState) : EngineState :=
  updateExplosionsGo now dt st.explosions.length st

/-! ## gameEngine.ts — update, phase 5 (level-complete check) -/

/-- Update phase 5 head: drop dead enemies, then fire `onLevelComplete`
exactly when the collection is empty and no terminal or transition flag is
already set (setting `isLevelComplete` as it fires). -/
def checkLevelComplete (st : EngineState) : EngineState :=
  let st := { st with enemies := st.enemies.filter (fun e => ¬e.isDead) }
  if st.enemies.length = 0 ∧ ¬st.isVictory ∧ ¬st.isLevelTransitioning ∧
      ¬st.isLevelComplete then
    { st with isLevelComplete := true,
              events := st.events ++ [.levelComplete] }
  else st

/-! ## gameEngine.ts — update, phase 7 (player–enemy collision) -/

/-- Update phase 7: while not shielded, any enemy within `0.7` tiles of the
player (by Euclidean distance; `Math.hypot(a,b) < c` is modelled as the
equivalent `a^2 + b^2 < c^2`, both sides nonnegative) kills the player. -/
def enemyCollisionPhase (now : Rat) (st : EngineState) : EngineState :=
  if st.player.invulnerableUntil < now then
    st.enemies.foldl
      (fun st e =>
        if (st.player.x - e.x) ^ 2 + (st.player.y - e.y) ^ 2 <
            ((TILE_SIZE : Rat) * (7 / 10)) ^ 2 then
          killPlayer now st
        else st)
      st
  else st

/-! ## gameEngine.ts — update, countdown timer block -/

/-- The stats block at the end of `update`: once per elapsed whole second
(detected by a floor-of-seconds change between `now - dt` and `now`) the
countdown decreases, and hitting zero invokes `killPlayer`. -/
def timerPhase (now dt : Rat) (st : EngineState) : EngineState :=
  if (now / 1000).floor ≠ ((now - dt) / 1000).floor then
    let st := { st with gameTime := st.gameTime - 1 }
    if st.gameTime ≤ 0 then killPlayer now st else st
  else st

/-! ## gameEngine.ts — update, phase 1 (input to movement delta) -/

structure InputState where
  up : Bool
  down : Bool
  left : Bool
  right : Bool
  bomb : Bool
  bombPressed : Bool
deriving DecidableEq, Repr

/-- The source literal `0.7071` (an inverse square root of 2 rounded to
four decimals). -/
def invSqrt2 : Rat := 7071 / 10000

/-- The movement-delta computation opening `update`: `dx`/`dy` start at 0,
a single `if / else if` chain sets at most one of them, and the trailing
branch rescales both by `invSqrt2` whenever both are nonzero. -/
def inputDelta (inp : InputState) : Rat × Rat :=
  let d : Rat × Rat :=
    if inp.up then (0, -1)
    else if inp.down then (0, 1)
    else if inp.left then (-1, 0)
    else if inp.right then (1, 0)
    else (0, 0)
  if d.1 ≠ 0 ∧ d.2 ≠ 0 then (d.1 * invSqrt2, d.2 * invSqrt2) else d

/-! ## gameEngine.ts — loop -/

/-- The guard inside `loop` deciding whether this animation frame runs
`update` at all. -/
def loopRunsUpdate (isPaused : Bool) (st : EngineState) : Bool :=
  ¬isPaused ∧ ¬st.isGameOver ∧ ¬st.isVictory ∧ ¬st.isLevelComplete

/-! ## Concrete states used as witnesses and counterexamples -/

/-- The all-empty tile function (cells inside the playfield bounds hold
`EMPTY`; out-of-bounds cells are never consulted by guarded code). -/
def emptyGrid : Grid := fun _ _ => TileType.EMPTY

/-- The freshly created player of `createPlayer`, at grid cell (1, 1). -/
def basePlayer : Player :=
  { x := 48, y := 48, gridX := 1, gridY := 1, direction := .DOWN,
    isMoving := false, bombsCount := 0, maxBombs := 1, bombRange := 2,
    speed := PLAYER_SPEED_BASE, invulnerableUntil := 0, isDead := false }

/-- A baseline mid-run engine state: fresh player, empty board, one enemy,
five lives. -/
def freshState : EngineState :=
  { grid := emptyGrid, player := basePlayer, bombs := [], explosions := [],
    powerUps := [],
    enemies := [{ id := 1, x := 480, y := 480, isBoss := false, hp := 1,
                  maxHp := 1, lastHitTime := 0, isDead := false, speed := 2 }],
    level := 1, score := 0, lives := 5, gameTime := 135,
    isGameOver := false, isVictory := false, isLevelTransitioning := false,
    isLevelComplete := false, events := [] }

/-- `freshState` with the player's bomb inventory at capacity. -/
def atCapacityState : EngineState :=
  { freshState with player := { basePlayer with bombsCount := 1 } }

/-- A trivial power-up oracle: no power-up ever spawns. -/
def noDropOracle : PowerUpOracle := fun _ _ => none

/-- A grid whose only non-empty tile is a hard wall at column 3, row 1. -/
def hardWallGrid : Grid :=
  fun r c => if r = 1 ∧ c = 3 then TileType.WALL_HARD else TileType.EMPTY

/-- A grid whose only non-empty tile is a soft wall at column 3, row 1. -/
def softWallGrid : Grid :=
  fun r c => if r = 1 ∧ c = 3 then TileType.WALL_SOFT else TileType.EMPTY

/-- A bomb at cell (1, 1) with blast range 2, about to detonate. -/
def rayBomb : Bomb :=
  { id := 9, col := 1, row := 1, timer := 0, range := 2, ownerId := "player" }

/-- Blast state at the start of `rayBomb`'s rightward ray over empty
ground (origin cell already recorded). -/
def openAcc : BlastAcc :=
  { grid := emptyGrid, bombs := [], powerUps := [], score := 0,
    cells := [⟨1, 1, false, .NONE⟩] }

/-- As `openAcc`, but a hard wall sits two cells to the right. -/
def hardAcc : BlastAcc := { openAcc with grid := hardWallGrid }

/-- As `openAcc`, but a soft wall sits two cells to the right. -/
def softAcc : BlastAcc := { openAcc with grid := softWallGrid }

/-- `freshState`, one second of countdown left. -/
def timeoutState : EngineState := { freshState with gameTime := 1 }

/-- A player under the spawn shield (`invulnerableUntil` in the future),
standing inside a live explosion cell with an enemy on top. -/
def invulnState : EngineState :=
  { freshState with
    player := { basePlayer with invulnerableUntil := 2500 },
    explosions := [{ id := 5, center := ⟨1, 1⟩,
                     cells := [⟨1, 1, false, .NONE⟩], timer := 600 }],
    enemies := [{ id := 1, x := 48, y := 48, isBoss := false, hp := 1,
                  maxHp := 1, lastHitTime := 0, isDead := false, speed := 2 }] }

/-- A state whose two remaining enemies were both marked dead during the
same damage phase of the current tick. -/
def deadEnemiesState : EngineState :=
  { freshState with
    enemies := [{ id := 1, x := 480, y := 480, isBoss := false, hp := 0,
                  maxHp := 1, lastHitTime := 0, isDead := true, speed := 2 },
                { id := 2, x := 240, y := 240, isBoss := true, hp := 0,
                  maxHp := 3, lastHitTime := 0, isDead := true, speed := 2.3 }] }

/-- Two live bombs, A before B in the array: A at (5,5) about to expire,
B at (6,5) on A's rightward blast ray (range 1, no wall between). -/
def chainLateState : EngineState :=
  { freshState with bombs :=
      [{ id := 1, col := 5, row := 5, timer := 10, range := 1, ownerId := "player" },
       { id := 2, col := 6, row := 5, timer := 1500, range := 1, ownerId := "player" }] }

/-- The same two bombs with the array order swapped: B precedes A. -/
def chainEarlyState : EngineState :=
  { freshState with bombs :=
      [{ id := 2, col := 6, row := 5, timer := 1500, range := 1, ownerId := "player" },
       { id := 1, col := 5, row := 5, timer := 10, range := 1, ownerId := "player" }] }

/-- `openAcc` with one live bomb at (2,1), on `rayBomb`'s rightward ray. -/
def chainAcc : BlastAcc :=
  { openAcc with bombs :=
      [{ id := 3, col := 2, row := 1, timer := 900, range := 2, ownerId := "player" }] }

/-- Relates a bomb to its state after an explosion pass: unchanged, or its
fuse forced to zero. -/
def zeroedFrom (b b' : Bomb) : Prop := b' = b ∨ b' = { b with timer := 0 }

/-- Every cell on a node's parent chain except the chain root passed the
walkability check when it was offered into the open set. -/
def chainWalkable (grid : Grid) (bombs : List GridPoint) : PathNode → Prop
  | .mk _ _ _ _ _ none => True
  | .mk x y _ _ _ (some p) =>
      isWalkable x y grid bombs false = true ∧ chainWalkable grid bombs p

/-! ## A* optimality vocabulary (for claim C6)

`posOf`, `manh`, `md` name positions and Manhattan distances; `inB` is the
in-bounds predicate of `isWalkable`; `adjacentCells` is the neighbour list
the loop body builds; `nodeOK` states the per-node invariants that every
open-set entry enjoys (consistent `h`/`f` fields, parent adjacency, exact
`g = parent.g + 1` chains); `AInv` is the loop invariant of `findPathLoop`
on the all-EMPTY grid; `lpath` is an explicit L-shaped staircase used to
witness that the frontier always holds a node on some optimal route;
`OInv` is the open-set part of `AInv` threaded through the neighbour
fold. -/

def posOf (n : PathNode) : Int × Int := (n.x, n.y)

def manh (p q : Int × Int) : Nat := (p.1 - q.1).natAbs + (p.2 - q.2).natAbs

def md (p : Int × Int) : Nat := p.1.natAbs + p.2.natAbs

def inB (p : Int × Int) : Prop := 0 ≤ p.1 ∧ p.1 < GRID_COLS ∧ 0 ≤ p.2 ∧ p.2 < GRID_ROWS

def adjacentCells (p : Int × Int) : List (Int × Int) :=
  [(p.1 + 1, p.2), (p.1 - 1, p.2), (p.1, p.2 + 1), (p.1, p.2 - 1)]

def nodeOK (t : GridPoint) : PathNode → Prop
  | .mk x y g h f none =>
      h = heuristic ⟨x, y⟩ t ∧ f = g + h ∧ x = 0 ∧ y = 0 ∧ g = 0
  | .mk x y g h f (some p) =>
      h = heuristic ⟨x, y⟩ t ∧ f = g + h ∧ g = p.g + 1 ∧
      (x, y) ∈ adjacentCells (posOf p) ∧ inB (x, y) ∧ nodeOK t p

structure AInv (t : GridPoint) (openS : List PathNode)
    (closedS : List (Int × Int)) : Prop where
  nodes : ∀ n ∈ openS, nodeOK t n
  distinct : (openS.map posOf).Nodup
  notClosed : ∀ n ∈ openS, posOf n ∉ closedS
  closedNodup : closedS.Nodup
  closedInB : ∀ p ∈ closedS, inB p
  frontier : ∀ p ∈ closedS, ∀ q ∈ adjacentCells p, inB q → q ∉ closedS →
    ∃ n ∈ openS, posOf n = q ∧ n.g ≤ md p + 1
  start : ((0 : Int), (0 : Int)) ∈ closedS ∨
    ∃ n ∈ openS, posOf n = ((0 : Int), (0 : Int)) ∧ n.g ≤ 0
  targetOpen : ((t.col, t.row) : Int × Int) ∉ closedS

def lpath (z : Int × Int) (i : Nat) : Int × Int :=
  if (i : Int) ≤ z.1 then ((i : Int), 0) else (z.1, (i : Int) - z.1)

def OInv (t : GridPoint) (closedS : List (Int × Int)) (os : List PathNode) : Prop :=
  (∀ n ∈ os, nodeOK t n) ∧ (os.map posOf).Nodup ∧ ∀ n ∈ os, posOf n ∉ closedS

/-! ## Helper lemmas -/

/-- Evaluate `Rat.floor` on a concrete quotient. -/
theorem ratFloor_eval (q : ℚ) (n : ℤ) (d : ℕ) (h : q = (n : ℚ) / (d : ℚ)) :
    q.floor = n / (d : ℤ) := by
  have hb : q.floor = ⌊q⌋ := rfl
  rw [hb, h, Rat.floor_intCast_div_natCast]

/-! ## Claim C4 — diagonal input -/

/-- Claim C4 counterexample: holding `up` and `left` together (two axes
simultaneously) yields the movement delta `(0, -1)` — pure vertical
movement, `dx = 0` — because the single `if / else if` chain lets only one
input win; the claimed diagonal `(−1/√2, −1/√2)` movement never happens. -/
theorem C4_counterexample :
    inputDelta ⟨true, false, true, false, false, false⟩ = (0, -1) ∧
    ¬((inputDelta ⟨true, false, true, false, false, false⟩).1 ≠ 0 ∧
      (inputDelta ⟨true, false, true, false, false, false⟩).2 ≠ 0) := by
  constructor
  · decide
  · decide

/-- Claim C4, amended: because `up / down / left / right` are read by one
`if / else if` chain, at most one axis of the movement delta is ever
nonzero (priority `UP`, `DOWN`, `LEFT`, `RIGHT`), so movement is always
axial and the `1/√2` normalization branch is unreachable dead code. -/
theorem C4_axial_movement (inp : InputState) :
    (inputDelta inp).1 = 0 ∨ (inputDelta inp).2 = 0 := by
  rcases inp with ⟨u, d, l, r, b, bp⟩
  cases u <;> cases d <;> cases l <;> cases r <;> cases b <;> cases bp <;> decide

/-! ## Claim C8 — placeBomb -/

/-- Claim C8: `placeBomb` is silently rejected, the whole state unchanged,
when the player's live-bomb count is at `maxBombs` or a live bomb already
occupies the player's current grid cell; otherwise exactly one bomb is
appended — at the player's cell, with the fixed 2000 ms fuse and the
player's current blast range — and the active bomb count increments. -/
theorem C8_placeBomb_spec (newId : Nat) (st : EngineState) :
    (st.player.maxBombs ≤ st.player.bombsCount → placeBomb newId st = st) ∧
    (st.player.bombsCount < st.player.maxBombs →
      (∃ b ∈ st.bombs, b.col = playerCol st.player ∧ b.row = playerRow st.player) →
      placeBomb newId st = st) ∧
    (st.player.bombsCount < st.player.maxBombs →
      (∀ b ∈ st.bombs, ¬(b.col = playerCol st.player ∧ b.row = playerRow st.player)) →
      (placeBomb newId st).bombs =
        st.bombs ++ [{ id := newId, col := playerCol st.player,
                       row := playerRow st.player, timer := 2000,
                       range := st.player.bombRange, ownerId := "player" }] ∧
      (placeBomb newId st).player.bombsCount = st.player.bombsCount + 1 ∧
      (placeBomb newId st).grid = st.grid ∧
      (placeBomb newId st).lives = st.lives ∧
      (placeBomb newId st).score = st.score ∧
      (placeBomb newId st).explosions = st.explosions ∧
      (placeBomb newId st).enemies = st.enemies) := by
  refine ⟨fun hcap => ?_, fun hroom hocc => ?_, fun hroom hfree => ?_⟩
  · simp only [placeBomb, if_pos hcap]
  · rcases hocc with ⟨b, hb, hcol, hrow⟩
    have hany : st.bombs.any
        (fun b => b.col = playerCol st.player ∧ b.row = playerRow st.player) = true := by
      simp only [List.any_eq_true]
      exact ⟨b, hb, by simp [hcol, hrow]⟩
    simp only [placeBomb, if_neg (not_le.mpr hroom)]
    rw [hany]
    simp
  · have hany : st.bombs.any
        (fun b => b.col = playerCol st.player ∧ b.row = playerRow st.player) = false := by
      simp only [List.any_eq_false]
      intro b hb
      simpa using hfree b hb
    have hplace : placeBomb newId st =
        { st with
          bombs := st.bombs ++
            [{ id := newId, col := playerCol st.player,
               row := playerRow st.player, timer := 2000,
               range := st.player.bombRange, ownerId := "player" }],
          player := { st.player with
            bombsCount := st.player.bombsCount + 1 } } := by
      simp only [placeBomb, if_neg (not_le.mpr hroom)]
      rw [hany]
      simp
    rw [hplace]
    exact ⟨rfl, rfl, rfl, rfl, rfl, rfl, rfl⟩

/-- Concrete instances for C8: a state at bomb capacity rejects, and a
fresh state accepts, growing the bomb list by the one new bomb. -/
theorem C8_placeBomb_spec_witness :
    (placeBomb 7 atCapacityState = atCapacityState) ∧
    (placeBomb 7 freshState).bombs =
      freshState.bombs ++ [{ id := 7, col := 1, row := 1, timer := 2000,
                             range := 2, ownerId := "player" }] := by
  constructor
  · exact (C8_placeBomb_spec 7 atCapacityState).1 (by decide)
  · have h := ((C8_placeBomb_spec 7 freshState).2.2 (by decide)
      (by intro b hb; simp [freshState] at hb)).1
    have hcol : playerCol freshState.player = 1 := by
      have := ratFloor_eval ((freshState.player.x + (TILE_SIZE : ℚ) / 2) /
        (TILE_SIZE : ℚ)) 72 48 (by norm_num [freshState, basePlayer, TILE_SIZE])
      simpa [playerCol] using this
    have hrow : playerRow freshState.player = 1 := by
      have := ratFloor_eval ((freshState.player.y + (TILE_SIZE : ℚ) / 2) /
        (TILE_SIZE : ℚ)) 72 48 (by norm_num [freshState, basePlayer, TILE_SIZE])
      simpa [playerRow] using this
    rw [h, hcol, hrow]
    rfl

/-! ## Claim C10 — findPath with start = target -/

/-- Claim C10: for every grid and bomb list, `findPath` called with start
equal to target returns the single-cell path `[start]` — even when that
cell is a wall tile or occupied by a bomb, because the start node is
enqueued and then immediately matched against the target before any
walkability check can reject it. -/
theorem C10_findPath_self (s : GridPoint) (grid : Grid) (bombs : List GridPoint) :
    findPath s s grid bombs = some [s] := by
  show findPathLoop s grid bombs MAX_ITERATIONS
    [.mk s.col s.row 0 (heuristic s s) (heuristic s s) none] [] = some [s]
  rw [show MAX_ITERATIONS = 499 + 1 from rfl]
  rw [findPathLoop]
  simp only [lowestFIndex, List.length_singleton, show List.range 1 = [0] from rfl,
    List.foldl_cons, List.foldl_nil, ite_self]
  rw [if_pos ⟨rfl, rfl⟩]
  simp [reconstruct]

/-! ## Claim C2 — countdown reaching zero -/

/-- Claim C2 counterexample: with five lives, a live unshielded player and
one second left, the tick that brings the countdown to zero does NOT
transition the run to `GameOver`: it merely costs one life (the
`onGameOver` callback never fires and `isGameOver` stays false). -/
theorem C2_counterexample :
    (timerPhase 1000 16 timeoutState).gameTime = 0 ∧
    (timerPhase 1000 16 timeoutState).lives = 4 ∧
    (timerPhase 1000 16 timeoutState).isGameOver = false ∧
    (timerPhase 1000 16 timeoutState).events = [] := by
  have h1 : ((1000 : ℚ) / 1000).floor = 1 := ratFloor_eval _ 1 1 (by norm_num)
  have h2 : (((1000 : ℚ) - 16) / 1000).floor = 0 :=
    ratFloor_eval _ 984 1000 (by norm_num)
  have hcross : (((1000 : ℚ)) / 1000).floor ≠ (((1000 : ℚ) - 16) / 1000).floor := by
    rw [h1, h2]; decide
  simp only [timerPhase, if_pos hcross, killPlayer, timeoutState, freshState,
    basePlayer]
  norm_num

/-- Claim C2, amended: when the countdown reaches zero during a tick, the
engine invokes `killPlayer`: a shielded or already-dead player is entirely
unaffected (beyond the countdown decrement), otherwise the player loses
one life and the run transitions to `GameOver` precisely when the
remaining lives reach zero. -/
theorem C2_timeout_behaviour (now dt : ℚ) (st : EngineState)
    (hcross : (now / 1000).floor ≠ ((now - dt) / 1000).floor)
    (hzero : st.gameTime - 1 ≤ 0)
    (hrun : st.isGameOver = false) :
    ((st.player.invulnerableUntil > now ∨ st.player.isDead) →
      timerPhase now dt st = { st with gameTime := st.gameTime - 1 }) ∧
    (¬(st.player.invulnerableUntil > now ∨ st.player.isDead) →
      (timerPhase now dt st).lives = st.lives - 1 ∧
      ((timerPhase now dt st).isGameOver = true ↔ st.lives - 1 ≤ 0) ∧
      (timerPhase now dt st).events =
        (if st.lives - 1 ≤ 0 then st.events ++ [.gameOver false] else st.events)) := by
  constructor
  · intro hshield
    simp only [timerPhase, if_pos hcross, killPlayer]
    rw [if_pos hzero, if_pos hshield]
  · intro hlive
    simp only [timerPhase, if_pos hcross, killPlayer]
    rw [if_pos hzero, if_neg hlive]
    by_cases hl : st.lives - 1 ≤ 0
    · rw [if_pos hl, if_pos hl]
      refine ⟨rfl, ?_, rfl⟩
      simpa using hl
    · rw [if_neg hl, if_neg hl]
      refine ⟨rfl, ?_, rfl⟩
      simp [hrun, hl]

/-- Concrete instance for C2's amended claim: the timeout tick on
`timeoutState` (five lives) costs a life without ending the run. -/
theorem C2_timeout_behaviour_witness :
    (timerPhase 1000 16 timeoutState).lives = timeoutState.lives - 1 ∧
    ((timerPhase 1000 16 timeoutState).isGameOver = true ↔
      timeoutState.lives - 1 ≤ 0) := by
  have h1 : ((1000 : ℚ) / 1000).floor = 1 := ratFloor_eval _ 1 1 (by norm_num)
  have h2 : (((1000 : ℚ) - 16) / 1000).floor = 0 :=
    ratFloor_eval _ 984 1000 (by norm_num)
  have h := (C2_timeout_behaviour 1000 16 timeoutState
    (by rw [h1, h2]; decide) (by decide) (by decide)).2
    (by simp [timeoutState, freshState, basePlayer])
  exact ⟨h.1, h.2.1⟩

/-! ## Claim C9 — invulnerability window -/

/-- `killPlayer` is a no-op on a shielded or dead player. -/
theorem killPlayer_noop (now : ℚ) (st : EngineState)
    (h : st.player.invulnerableUntil > now ∨ st.player.isDead) :
    killPlayer now st = st := by
  simp only [killPlayer, if_pos h]

/-- `cellDamage` under an active shield: the player record and the life
counter survive one explosion cell untouched. -/
theorem cellDamage_shielded (now : ℚ) (st : EngineState) (cell : ExplCell)
    (h : now < st.player.invulnerableUntil) :
    (cellDamage now st cell).player = st.player ∧
    (cellDamage now st cell).lives = st.lives := by
  simp only [cellDamage]
  rcases Decidable.em (playerCol st.player = cell.col ∧ playerRow st.player = cell.row) with hc | hc
  · rw [if_pos hc, killPlayer_noop now st (Or.inl h)]
    exact ⟨rfl, rfl⟩
  · rw [if_neg hc]
    exact ⟨rfl, rfl⟩

/-- Folding `cellDamage` over any cell list preserves player and lives
while the shield holds. -/
theorem cellDamage_fold_shielded (now : ℚ) (cells : List ExplCell) :
    ∀ st : EngineState, now < st.player.invulnerableUntil →
    (cells.foldl (cellDamage now) st).player = st.player ∧
    (cells.foldl (cellDamage now) st).lives = st.lives := by
  induction cells with
  | nil => exact fun st _ => ⟨rfl, rfl⟩
  | cons c rest ih =>
    intro st h
    have hc := cellDamage_shielded now st c h
    have ih' := ih (cellDamage now st c) (by rw [hc.1]; exact h)
    simp only [List.foldl_cons]
    exact ⟨hc.1 ▸ ih'.1, hc.2 ▸ ih'.2⟩

/-- The explosion-update loop preserves player and lives while the shield
holds. -/
theorem updateExplosionsGo_shielded (now dt : ℚ) :
    ∀ (i : Nat) (st : EngineState), now < st.player.invulnerableUntil →
    (updateExplosionsGo now dt i st).player = st.player ∧
    (updateExplosionsGo now dt i st).lives = st.lives := by
  intro i
  induction i with
  | zero => exact fun st _ => ⟨rfl, rfl⟩
  | succ i ih =>
    intro st h
    rw [updateExplosionsGo]
    cases hexp : st.explosions.get? i with
    | none => exact ih st h
    | some exp =>
      simp only
      set exp' : Explosion := { exp with timer := exp.timer - dt } with hexp'
      set st1 : EngineState := { st with explosions := st.explosions.set i exp' } with hst1
      have h1 : now < st1.player.invulnerableUntil := h
      have hfold := cellDamage_fold_shielded now exp'.cells st1 h1
      set st2 := exp'.cells.foldl (cellDamage now) st1 with hst2
      rcases Decidable.em (exp'.timer ≤ 0) with ht | ht
      · rw [if_pos ht]
        have := ih { st2 with explosions := st2.explosions.eraseIdx i }
          (by show now < st2.player.invulnerableUntil; rw [hfold.1]; exact h1)
        exact ⟨by rw [this.1]; exact hfold.1, by rw [this.2]; exact hfold.2⟩
      · rw [if_neg ht]
        have := ih st2 (by rw [hfold.1]; exact h1)
        exact ⟨by rw [this.1]; exact hfold.1, by rw [this.2]; exact hfold.2⟩

/-- Claim C9: on a tick whose time `now` is strictly before the player's
`invulnerableUntil`, neither the explosion damage phase (player cell
overlapping an explosion cell) nor the enemy proximity phase can decrement
`lives` — the latter is skipped wholesale by its guard. -/
theorem C9_shield_blocks_damage (now dt : ℚ) (st : EngineState)
    (hinv : now < st.player.invulnerableUntil) :
    (updateExplosions now dt st).lives = st.lives ∧
    enemyCollisionPhase now st = st := by
  refine ⟨(updateExplosionsGo_shielded now dt st.explosions.length st hinv).2, ?_⟩
  simp only [enemyCollisionPhase, if_neg (not_lt.mpr (le_of_lt hinv))]

/-- Concrete instance for C9: a shielded player standing in a live
explosion cell with an enemy on top loses no life during either phase. -/
theorem C9_shield_blocks_damage_witness :
    (5 : ℚ) < invulnState.player.invulnerableUntil ∧
    (updateExplosions 5 16 invulnState).lives = invulnState.lives ∧
    enemyCollisionPhase 5 invulnState = invulnState := by
  have hlt : (5 : ℚ) < invulnState.player.invulnerableUntil := by
    show (5 : ℚ) < 2500
    norm_num
  exact ⟨hlt, C9_shield_blocks_damage 5 16 invulnState hlt⟩

/-! ## Claim C7 — LevelComplete fires exactly once -/

/-- Claim C7: the tick on which the enemy collection empties (here: all
`N` remaining enemies marked dead during this tick's damage phase) fires
`onLevelComplete` exactly once — one event appended, independent of `N` —
and sets `isLevelComplete`; once that flag holds, later frames skip
`update` entirely (the `loop` guard fails), and even the check itself can
never re-fire. -/
theorem C7_level_complete_once (st : EngineState)
    (hvict : st.isVictory = false) (htrans : st.isLevelTransitioning = false)
    (hcomp : st.isLevelComplete = false)
    (hdead : ∀ e ∈ st.enemies, e.isDead = true) :
    (checkLevelComplete st).events = st.events ++ [.levelComplete] ∧
    (checkLevelComplete st).isLevelComplete = true ∧
    (checkLevelComplete st).enemies = [] ∧
    (∀ st' : EngineState, st'.isLevelComplete = true →
      loopRunsUpdate false st' = false) ∧
    (∀ st' : EngineState, st'.isLevelComplete = true →
      checkLevelComplete st' =
        { st' with enemies := st'.enemies.filter (fun e => ¬e.isDead) }) := by
  have hfilter : st.enemies.filter (fun e => ¬e.isDead) = [] := by
    rw [List.filter_eq_nil_iff]
    intro e he
    simp [hdead e he]
  have hfire : checkLevelComplete st =
      { st with enemies := [], isLevelComplete := true,
                events := st.events ++ [.levelComplete] } := by
    simp only [checkLevelComplete, hfilter]
    rw [if_pos]
    simp [hvict, htrans, hcomp]
  refine ⟨by rw [hfire], by rw [hfire], by rw [hfire], ?_, ?_⟩
  · intro st' h'
    simp [loopRunsUpdate, h']
  · intro st' h'
    simp only [checkLevelComplete]
    rw [if_neg]
    simp [h']

/-- Concrete instance for C7: both remaining enemies died in this tick's
damage phase; the check fires one single `LevelComplete` event (not two)
and the following frame's loop guard blocks `update`. -/
theorem C7_level_complete_once_witness :
    (checkLevelComplete deadEnemiesState).events = [.levelComplete] ∧
    loopRunsUpdate false (checkLevelComplete deadEnemiesState) = false := by
  have h := C7_level_complete_once deadEnemiesState (by decide) (by decide)
    (by decide) (by decide)
  exact ⟨h.1, h.2.2.2.1 _ h.2.1⟩

theorem rayGo_clear_step (oracle : PowerUpOracle) (newId : Nat) (bomb : Bomb)
    (dx dy : Int) (dir : Direction) (j m : Nat) (acc : BlastAcc)
    (hc : rayClear acc.grid acc.bombs (rayCol bomb dx j) (rayRow bomb dy j)) :
    rayGo oracle newId bomb dx dy dir (List.range' j (m + 1)) acc =
    rayGo oracle newId bomb dx dy dir (List.range' (j + 1) m)
      { acc with cells := acc.cells ++ [rayCellOf bomb dx dy dir j] } := by
  obtain ⟨hb, he, hn⟩ := hc
  simp only [cellInBounds, rayCol, rayRow] at hb he hn
  rw [List.range'_succ]
  simp only [rayGo, if_neg hb]
  have hn' : List.findIdx?
      (fun b : Bomb => decide (b.col = bomb.col + dx * (j : Int)) &&
        decide (b.row = bomb.row + dy * (j : Int))) acc.bombs = none := by
    simpa using hn
  simp [he, hn', rayCellOf, rayCol, rayRow]

theorem rayGo_clear_all (oracle : PowerUpOracle) (newId : Nat) (bomb : Bomb)
    (dx dy : Int) (dir : Direction) :
    ∀ (m j : Nat) (acc : BlastAcc),
    (∀ i, j ≤ i → i < j + m →
      rayClear acc.grid acc.bombs (rayCol bomb dx i) (rayRow bomb dy i)) →
    rayGo oracle newId bomb dx dy dir (List.range' j m) acc =
      { acc with cells := acc.cells ++
          (List.range' j m).map (rayCellOf bomb dx dy dir) } := by
  intro m
  induction m with
  | zero => intro j acc _; simp [rayGo, List.range']
  | succ m ih =>
    intro j acc h
    rw [rayGo_clear_step oracle newId bomb dx dy dir j m acc (h j le_rfl (by omega))]
    have ih' := ih (j + 1) { acc with cells := acc.cells ++ [rayCellOf bomb dx dy dir j] }
      (fun i h1 h2 => h i (by omega) (by omega))
    rw [ih']
    simp only [List.range'_succ, List.map_cons, List.append_assoc, List.singleton_append]

theorem rayGo_hard_stop (oracle : PowerUpOracle) (newId : Nat) (bomb : Bomb)
    (dx dy : Int) (dir : Direction) :
    ∀ (m j k : Nat) (acc : BlastAcc), j ≤ k → k < j + m →
    (∀ i, j ≤ i → i < k →
      rayClear acc.grid acc.bombs (rayCol bomb dx i) (rayRow bomb dy i)) →
    cellInBounds (rayCol bomb dx k) (rayRow bomb dy k) →
    acc.grid.get (rayRow bomb dy k) (rayCol bomb dx k) = TileType.WALL_HARD →
    rayGo oracle newId bomb dx dy dir (List.range' j m) acc =
      { acc with cells := acc.cells ++
          (List.range' j (k - j)).map (rayCellOf bomb dx dy dir) } := by
  intro m
  induction m with
  | zero => intro j k acc h1 h2; exact absurd h2 (by omega)
  | succ m ih =>
    intro j k acc hjk hkm hclear hb hhard
    rcases Nat.eq_or_lt_of_le hjk with heq | hlt
    · subst heq
      simp only [cellInBounds, rayCol, rayRow] at hb hhard
      rw [List.range'_succ]
      simp only [rayGo, if_neg hb]
      simp [hhard]
    · rw [rayGo_clear_step oracle newId bomb dx dy dir j m acc (hclear j le_rfl hlt)]
      have ih' := ih (j + 1) k { acc with cells := acc.cells ++ [rayCellOf bomb dx dy dir j] }
        (by omega) (by omega) (fun i h1 h2 => hclear i (by omega) h2) hb hhard
      rw [ih']
      have hk : k - j = (k - (j + 1)) + 1 := by omega
      rw [hk, List.range'_succ]
      simp only [List.map_cons, List.append_assoc, List.singleton_append]

theorem rayGo_soft_stop (oracle : PowerUpOracle) (newId : Nat) (bomb : Bomb)
    (dx dy : Int) (dir : Direction) :
    ∀ (m j k : Nat) (acc : BlastAcc), j ≤ k → k < j + m →
    (∀ i, j ≤ i → i < k →
      rayClear acc.grid acc.bombs (rayCol bomb dx i) (rayRow bomb dy i)) →
    cellInBounds (rayCol bomb dx k) (rayRow bomb dy k) →
    acc.grid.get (rayRow bomb dy k) (rayCol bomb dx k) = TileType.WALL_SOFT →
    acc.bombs.findIdx? (fun b : Bomb =>
      b.col = rayCol bomb dx k ∧ b.row = rayRow bomb dy k) = none →
    (rayGo oracle newId bomb dx dy dir (List.range' j m) acc).cells =
      acc.cells ++ (List.range' j (k - j + 1)).map (rayCellOf bomb dx dy dir) ∧
    (rayGo oracle newId bomb dx dy dir (List.range' j m) acc).grid =
      acc.grid.set (rayRow bomb dy k) (rayCol bomb dx k) TileType.EMPTY ∧
    (rayGo oracle newId bomb dx dy dir (List.range' j m) acc).score =
      acc.score + 10 := by
  intro m
  induction m with
  | zero => intro j k acc h1 h2; exact absurd h2 (by omega)
  | succ m ih =>
    intro j k acc hjk hkm hclear hb hsoft hnb
    rcases Nat.eq_or_lt_of_le hjk with heq | hlt
    · subst heq
      simp only [cellInBounds, rayCol, rayRow] at hb hsoft hnb
      rw [List.range'_succ]
      simp only [rayGo, if_neg hb]
      rw [hsoft]
      rw [if_neg (by decide : ¬(TileType.WALL_SOFT = TileType.WALL_HARD))]
      simp only [hnb]
      rcases horacle : oracle (bomb.col + dx * (j : Int)) (bomb.row + dy * (j : Int)) with _ | t <;>
        simp [horacle, destroyBlock, rayCellOf, rayCol, rayRow, List.range'_succ]
    · rw [rayGo_clear_step oracle newId bomb dx dy dir j m acc (hclear j le_rfl hlt)]
      have := ih (j + 1) k { acc with cells := acc.cells ++ [rayCellOf bomb dx dy dir j] }
        (by omega) (by omega) (fun i h1 h2 => hclear i (by omega) h2) hb hsoft hnb
      refine ⟨?_, this.2.1, this.2.2⟩
      rw [this.1]
      have hk : k - j + 1 = (k - (j + 1) + 1) + 1 := by omega
      rw [hk]
      simp only [List.range'_succ, List.map_cons, List.append_assoc, List.singleton_append]

/-- Claim C5: each cardinal blast ray of a detonating bomb walks outward
cell by cell up to the bomb's range. In open space (first conjunct) it
records exactly `range` cells, so together with the already-recorded origin
cell a ray of range R touches R+1 cells. A first `WALL_HARD` at distance
`k` (second conjunct) stops the ray with that cell excluded and the whole
blast state otherwise untouched. A first `WALL_SOFT` at distance `k`
(third conjunct) is included, stops the ray, is converted to `EMPTY`, and
awards 10 score. -/
theorem C5_blast_ray (oracle : PowerUpOracle) (newId : Nat) (bomb : Bomb)
    (dx dy : Int) (dir : Direction) (acc : BlastAcc) :
    ((∀ i, 1 ≤ i → i ≤ bomb.range →
        rayClear acc.grid acc.bombs (rayCol bomb dx i) (rayRow bomb dy i)) →
      rayGo oracle newId bomb dx dy dir (List.range' 1 bomb.range) acc =
        { acc with cells := acc.cells ++
            (List.range' 1 bomb.range).map (rayCellOf bomb dx dy dir) } ∧
      (rayGo oracle newId bomb dx dy dir (List.range' 1 bomb.range) acc).cells.length =
        acc.cells.length + bomb.range) ∧
    (∀ k, 1 ≤ k → k ≤ bomb.range →
      (∀ i, 1 ≤ i → i < k →
        rayClear acc.grid acc.bombs (rayCol bomb dx i) (rayRow bomb dy i)) →
      cellInBounds (rayCol bomb dx k) (rayRow bomb dy k) →
      acc.grid.get (rayRow bomb dy k) (rayCol bomb dx k) = TileType.WALL_HARD →
      rayGo oracle newId bomb dx dy dir (List.range' 1 bomb.range) acc =
        { acc with cells := acc.cells ++
            (List.range' 1 (k - 1)).map (rayCellOf bomb dx dy dir) }) ∧
    (∀ k, 1 ≤ k → k ≤ bomb.range →
      (∀ i, 1 ≤ i → i < k →
        rayClear acc.grid acc.bombs (rayCol bomb dx i) (rayRow bomb dy i)) →
      cellInBounds (rayCol bomb dx k) (rayRow bomb dy k) →
      acc.grid.get (rayRow bomb dy k) (rayCol bomb dx k) = TileType.WALL_SOFT →
      acc.bombs.findIdx? (fun b : Bomb =>
        b.col = rayCol bomb dx k ∧ b.row = rayRow bomb dy k) = none →
      (rayGo oracle newId bomb dx dy dir (List.range' 1 bomb.range) acc).cells =
        acc.cells ++ (List.range' 1 (k - 1 + 1)).map (rayCellOf bomb dx dy dir) ∧
      (rayGo oracle newId bomb dx dy dir (List.range' 1 bomb.range) acc).grid =
        acc.grid.set (rayRow bomb dy k) (rayCol bomb dx k) TileType.EMPTY ∧
      (rayGo oracle newId bomb dx dy dir (List.range' 1 bomb.range) acc).score =
        acc.score + 10) := by
  refine ⟨fun hclear => ?_, fun k hk1 hk2 hclear hb hh => ?_, fun k hk1 hk2 hclear hb hs hnb => ?_⟩
  · have h := rayGo_clear_all oracle newId bomb dx dy dir bomb.range 1 acc
      (fun i h1 h2 => hclear i h1 (by omega))
    refine ⟨h, ?_⟩
    rw [h]
    simp [List.length_range']
  · exact rayGo_hard_stop oracle newId bomb dx dy dir bomb.range 1 k acc hk1
      (by omega) hclear hb hh
  · have h := rayGo_soft_stop oracle newId bomb dx dy dir bomb.range 1 k acc hk1
      (by omega) hclear hb hs hnb
    exact h

/-- Concrete instances for C5: `rayBomb` (range 2) walking right from
(1,1). Over empty ground the ray plus origin touches 3 = R+1 cells; with a
hard wall at distance 2 only the distance-1 cell is recorded and nothing
else changes; with a soft wall at distance 2 the wall cell is recorded,
cleared to `EMPTY`, and 10 score accrues. -/
theorem C5_blast_ray_witness :
    (rayGo noDropOracle 0 rayBomb 1 0 .RIGHT (List.range' 1 2) openAcc).cells.length = 3 ∧
    rayGo noDropOracle 0 rayBomb 1 0 .RIGHT (List.range' 1 2) hardAcc =
      { hardAcc with cells := hardAcc.cells ++
          (List.range' 1 1).map (rayCellOf rayBomb 1 0 .RIGHT) } ∧
    (rayGo noDropOracle 0 rayBomb 1 0 .RIGHT (List.range' 1 2) softAcc).score =
      softAcc.score + 10 ∧
    (rayGo noDropOracle 0 rayBomb 1 0 .RIGHT (List.range' 1 2) softAcc).grid =
      softAcc.grid.set 1 3 TileType.EMPTY := by
  have hrange : rayBomb.range = 2 := rfl
  refine ⟨?_, ?_, ?_, ?_⟩
  · have h := (C5_blast_ray noDropOracle 0 rayBomb 1 0 .RIGHT openAcc).1
      (fun i h1 h2 => ⟨by unfold cellInBounds rayCol rayRow; rw [hrange] at h2; simp [rayBomb, GRID_ROWS, GRID_COLS]; omega,
        rfl, rfl⟩)
    rw [hrange] at h
    simpa [openAcc] using h.2
  · have h := (C5_blast_ray noDropOracle 0 rayBomb 1 0 .RIGHT hardAcc).2.1 2
      (by norm_num) (by rw [hrange])
      (fun i h1 h2 => by
        have hi : i = 1 := by omega
        subst hi
        exact ⟨by unfold cellInBounds rayCol rayRow; decide, by decide, rfl⟩)
      (by unfold cellInBounds rayCol rayRow; decide)
      (by decide)
    rw [hrange] at h
    simpa using h
  · have h := (C5_blast_ray noDropOracle 0 rayBomb 1 0 .RIGHT softAcc).2.2 2
      (by norm_num) (by rw [hrange])
      (fun i h1 h2 => by
        have hi : i = 1 := by omega
        subst hi
        exact ⟨by unfold cellInBounds rayCol rayRow; decide, by decide, rfl⟩)
      (by unfold cellInBounds rayCol rayRow; decide)
      (by decide) rfl
    rw [hrange] at h
    exact h.2.2
  · have h := (C5_blast_ray noDropOracle 0 rayBomb 1 0 .RIGHT softAcc).2.2 2
      (by norm_num) (by rw [hrange])
      (fun i h1 h2 => by
        have hi : i = 1 := by omega
        subst hi
        exact ⟨by unfold cellInBounds rayCol rayRow; decide, by decide, rfl⟩)
      (by unfold cellInBounds rayCol rayRow; decide)
      (by decide) rfl
    rw [hrange] at h
    have hg := h.2.1
    have hc : rayCol rayBomb 1 2 = 3 := by unfold rayCol; simp [rayBomb]
    have hr : rayRow rayBomb 0 2 = 1 := by unfold rayRow; simp [rayBomb]
    rw [hc, hr] at hg
    exact hg

theorem rayGo_bomb_stop (oracle : PowerUpOracle) (newId : Nat) (bomb : Bomb)
    (dx dy : Int) (dir : Direction) :
    ∀ (m j k : Nat) (acc : BlastAcc) (idx : Nat), j ≤ k → k < j + m →
    (∀ i, j ≤ i → i < k →
      rayClear acc.grid acc.bombs (rayCol bomb dx i) (rayRow bomb dy i)) →
    cellInBounds (rayCol bomb dx k) (rayRow bomb dy k) →
    acc.grid.get (rayRow bomb dy k) (rayCol bomb dx k) ≠ TileType.WALL_HARD →
    acc.bombs.findIdx? (fun b : Bomb =>
      b.col = rayCol bomb dx k ∧ b.row = rayRow bomb dy k) = some idx →
    rayGo oracle newId bomb dx dy dir (List.range' j m) acc =
      { acc with
        cells := acc.cells ++ (List.range' j (k - j + 1)).map (rayCellOf bomb dx dy dir),
        bombs := acc.bombs.set idx { acc.bombs.get! idx with timer := 0 } } := by
  intro m
  induction m with
  | zero => intro j k acc idx h1 h2; exact absurd h2 (by omega)
  | succ m ih =>
    intro j k acc idx hjk hkm hclear hb hnh hfind
    rcases Nat.eq_or_lt_of_le hjk with heq | hlt
    · subst heq
      simp only [cellInBounds, rayCol, rayRow] at hb hnh hfind
      rw [List.range'_succ]
      simp only [rayGo, if_neg hb, if_neg hnh]
      simp only [hfind]
      simp only [Nat.sub_self, Nat.zero_add, List.range'_one, List.map_cons, List.map_nil,
        rayCellOf, rayCol, rayRow]
    · rw [rayGo_clear_step oracle newId bomb dx dy dir j m acc (hclear j le_rfl hlt)]
      have ih' := ih (j + 1) k { acc with cells := acc.cells ++ [rayCellOf bomb dx dy dir j] }
        idx (by omega) (by omega) (fun i h1 h2 => hclear i (by omega) h2) hb hnh hfind
      rw [ih']
      have hk : k - j + 1 = (k - (j + 1) + 1) + 1 := by omega
      rw [hk]
      simp only [List.range'_succ, List.map_cons, List.append_assoc, List.singleton_append]

theorem zeroedFrom_pos {a b : Bomb} (h : zeroedFrom a b) :
    b.col = a.col ∧ b.row = a.row := by
  rcases h with h | h <;> subst h <;> exact ⟨rfl, rfl⟩

theorem zeroedFrom_timer {a b : Bomb} (h : zeroedFrom a b) :
    b.timer = a.timer ∨ b.timer = 0 := by
  rcases h with h | h <;> subst h
  · exact Or.inl rfl
  · exact Or.inr rfl

theorem zeroedFrom_trans {a b c : Bomb} (h1 : zeroedFrom a b)
    (h2 : zeroedFrom b c) : zeroedFrom a c := by
  rcases h1 with h1 | h1 <;> rcases h2 with h2 | h2 <;> subst h1 <;> subst h2
  · exact Or.inl rfl
  · exact Or.inr rfl
  · exact Or.inr rfl
  · exact Or.inr rfl

theorem forall₂_zeroedFrom_refl (l : List Bomb) :
    List.Forall₂ zeroedFrom l l := by
  induction l with
  | nil => exact List.Forall₂.nil
  | cons a rest ih => exact List.Forall₂.cons (Or.inl rfl) ih

theorem forall₂_zeroedFrom_trans :
    ∀ {l1 l2 l3 : List Bomb}, List.Forall₂ zeroedFrom l1 l2 →
    List.Forall₂ zeroedFrom l2 l3 → List.Forall₂ zeroedFrom l1 l3 := by
  intro l1 l2 l3 h1
  induction h1 generalizing l3 with
  | nil => intro h2; cases h2; exact List.Forall₂.nil
  | cons hab hrest ih =>
    intro h2
    cases h2 with
    | cons hbc hrest2 =>
      exact List.Forall₂.cons (zeroedFrom_trans hab hbc) (ih hrest2)

theorem forall₂_zeroedFrom_set :
    ∀ (l : List Bomb) (idx : Nat),
    List.Forall₂ zeroedFrom l (l.set idx { l.get! idx with timer := 0 }) := by
  intro l
  induction l with
  | nil => intro idx; exact List.Forall₂.nil
  | cons a rest ih =>
    intro idx
    cases idx with
    | zero => exact List.Forall₂.cons (Or.inr rfl) (forall₂_zeroedFrom_refl rest)
    | succ idx => exact List.Forall₂.cons (Or.inl rfl) (ih idx)

theorem forall₂_zeroedFrom_mem {l l' : List Bomb}
    (h : List.Forall₂ zeroedFrom l l') :
    ∀ b' ∈ l', ∃ b ∈ l, zeroedFrom b b' := by
  induction h with
  | nil => intro b' hb'; cases hb'
  | cons hab hrest ih =>
    intro b' hb'
    rcases List.mem_cons.mp hb' with h | h
    · subst h; exact ⟨_, List.mem_cons_self _ _, hab⟩
    · obtain ⟨b, hb, hz⟩ := ih b' h
      exact ⟨b, List.mem_cons_of_mem _ hb, hz⟩

theorem forall₂_zeroedFrom_get? :
    ∀ {l l' : List Bomb}, List.Forall₂ zeroedFrom l l' → ∀ (k : Nat),
    (l.get? k = none ∧ l'.get? k = none) ∨
    (∃ a b, l.get? k = some a ∧ l'.get? k = some b ∧ zeroedFrom a b) := by
  intro l l' h
  induction h with
  | nil => intro k; exact Or.inl ⟨rfl, rfl⟩
  | cons hab hrest ih =>
    intro k
    cases k with
    | zero => exact Or.inr ⟨_, _, rfl, rfl, hab⟩
    | succ k => exact ih k

theorem destroyBlock_bombs (oracle : PowerUpOracle) (newId : Nat)
    (acc : BlastAcc) (c r : Int) :
    (destroyBlock oracle newId acc c r).bombs = acc.bombs := by
  simp only [destroyBlock]
  cases oracle c r <;> rfl

theorem rayGo_bombs_zeroed (oracle : PowerUpOracle) (newId : Nat) (bomb : Bomb)
    (dx dy : Int) (dir : Direction) :
    ∀ (steps : List Nat) (acc : BlastAcc),
    List.Forall₂ zeroedFrom acc.bombs
      (rayGo oracle newId bomb dx dy dir steps acc).bombs := by
  intro steps
  induction steps with
  | nil => intro acc; exact forall₂_zeroedFrom_refl _
  | cons i rest ih =>
    intro acc
    simp only [rayGo]
    split
    · exact forall₂_zeroedFrom_refl _
    · split
      · exact forall₂_zeroedFrom_refl _
      · split
        · exact forall₂_zeroedFrom_set _ _
        · split
          · rw [destroyBlock_bombs]
            exact forall₂_zeroedFrom_refl _
          · exact ih { acc with cells := acc.cells ++
              [⟨bomb.col + dx * i, bomb.row + dy * i, decide (i = bomb.range), dir⟩] }

theorem rayGo_bombs_zeroed_trans (oracle : PowerUpOracle) (newId : Nat)
    (bomb : Bomb) (dx dy : Int) (dir : Direction) (steps : List Nat)
    {L : List Bomb} (acc : BlastAcc)
    (h : List.Forall₂ zeroedFrom L acc.bombs) :
    List.Forall₂ zeroedFrom L
      (rayGo oracle newId bomb dx dy dir steps acc).bombs :=
  forall₂_zeroedFrom_trans h
    (rayGo_bombs_zeroed oracle newId bomb dx dy dir steps acc)

theorem explodeBomb_bombs_zeroed (oracle : PowerUpOracle) (newId : Nat)
    (st : EngineState) (bomb : Bomb) :
    List.Forall₂ zeroedFrom st.bombs
      (explodeBomb oracle newId st bomb).bombs := by
  simp only [explodeBomb, blastDirections, List.foldl_cons, List.foldl_nil]
  apply rayGo_bombs_zeroed_trans
  apply rayGo_bombs_zeroed_trans
  apply rayGo_bombs_zeroed_trans
  apply rayGo_bombs_zeroed_trans
  exact forall₂_zeroedFrom_refl st.bombs

/-- One pass of update phase 3 removes every bomb sitting on a cell whose
bombs all have expired timers. -/
theorem updateBombsGo_sweep (oracle : PowerUpOracle) (newId : Nat) (dt : Rat)
    (c r : Int) (hdt : 0 ≤ dt) :
    ∀ (i : Nat) (st : EngineState),
    (∀ b ∈ st.bombs, b.col = c ∧ b.row = r → b.timer ≤ 0) →
    (∀ k, i ≤ k → ∀ b, st.bombs.get? k = some b → ¬(b.col = c ∧ b.row = r)) →
    ∀ b' ∈ (updateBombsGo oracle newId dt i st).bombs,
      ¬(b'.col = c ∧ b'.row = r) := by
  intro i
  induction i with
  | zero =>
    intro st hall htail b' hb'
    obtain ⟨k, hk⟩ := List.mem_iff_get?.mp hb'
    exact htail k (Nat.zero_le k) b' hk
  | succ i ih =>
    intro st hall htail
    rw [updateBombsGo]
    cases hget : st.bombs.get? i with
    | none =>
      exact ih st hall (fun k hk b hb => by
        rcases Nat.eq_or_lt_of_le hk with heq | hlt
        · subst heq; rw [hget] at hb; cases hb
        · exact htail k hlt b hb)
    | some bomb =>
      have hmem : bomb ∈ st.bombs := List.get?_mem hget
      have hilen : i < st.bombs.length := by
        rcases List.get?_eq_some.mp hget with ⟨h, _⟩
        exact h
      simp only
      by_cases ht : bomb.timer - dt ≤ 0
      · rw [if_pos ht]
        -- the exploding branch
        set bomb' : Bomb := { bomb with timer := bomb.timer - dt } with hbomb'
        set st1 : EngineState := { st with bombs := st.bombs.set i bomb' } with hst1
        set st2 : EngineState := explodeBomb oracle newId st1 bomb' with hst2
        have hz : List.Forall₂ zeroedFrom st1.bombs st2.bombs :=
          explodeBomb_bombs_zeroed oracle newId st1 bomb'
        have hall2 : ∀ b ∈ st2.bombs, b.col = c ∧ b.row = r → b.timer ≤ 0 := by
          intro b hb hpos
          obtain ⟨a, ha, hza⟩ := forall₂_zeroedFrom_mem hz b hb
          have hposa : a.col = c ∧ a.row = r := by
            have := zeroedFrom_pos hza
            exact ⟨this.1 ▸ hpos.1, this.2 ▸ hpos.2⟩
          have hta : a.timer ≤ 0 := by
            rcases List.mem_or_eq_of_mem_set ha with ha' | ha'
            · exact hall a ha' hposa
            · subst ha'
              have : bomb.col = c ∧ bomb.row = r := hposa
              have := hall bomb hmem this
              show bomb.timer - dt ≤ 0
              linarith
          rcases zeroedFrom_timer hza with h | h
          · rw [h]; exact hta
          · rw [h]
        have htail2 : ∀ k, i ≤ k → ∀ b,
            (st2.bombs.eraseIdx i).get? k = some b → ¬(b.col = c ∧ b.row = r) := by
          intro k hk b hb
          rw [List.get?_eq_getElem?, List.getElem?_eraseIdx] at hb
          rw [if_neg (by omega : ¬ k < i)] at hb
          rcases forall₂_zeroedFrom_get? hz (k + 1) with ⟨h1, h2⟩ | ⟨a, b2, h1, h2, hz2⟩
          · rw [← List.get?_eq_getElem?] at hb
            rw [h2] at hb; cases hb
          · rw [← List.get?_eq_getElem?] at hb
            rw [h2] at hb
            injection hb with hb; subst hb
            have h1' : st.bombs.get? (k + 1) = some a := by
              rw [← h1, hst1]
              rw [List.get?_eq_getElem?, List.get?_eq_getElem?, List.getElem?_set_ne (by omega : i ≠ k + 1)]
            have hnot := htail (k + 1) (by omega) a h1'
            intro hpos
            have hp := zeroedFrom_pos hz2
            exact hnot ⟨hp.1 ▸ hpos.1, hp.2 ▸ hpos.2⟩
        have hall3 : ∀ b ∈ st2.bombs.eraseIdx i,
            b.col = c ∧ b.row = r → b.timer ≤ 0 :=
          fun b hb => hall2 b (List.eraseIdx_subset _ _ hb)
        split
        · exact ih _ hall3 htail2
        · exact ih _ hall3 htail2
      · rw [if_neg ht]
        have hnotp : ¬(bomb.col = c ∧ bomb.row = r) := by
          intro hpos
          have := hall bomb hmem hpos
          have : bomb.timer - dt ≤ 0 := by linarith
          exact ht this
        apply ih
        · intro b hb hpos
          rcases List.mem_or_eq_of_mem_set hb with hb' | hb'
          · exact hall b hb' hpos
          · subst hb'
            exact absurd ⟨hpos.1, hpos.2⟩ hnotp
        · intro k hk b hb
          rcases Nat.eq_or_lt_of_le hk with heq | hlt
          · subst heq
            rw [List.get?_eq_getElem?, List.getElem?_set_self hilen] at hb
            injection hb with hb; subst hb
            exact hnotp
          · rw [List.get?_eq_getElem?, List.getElem?_set_ne (by omega : i ≠ k),
              ← List.get?_eq_getElem?] at hb
            exact htail k hlt b hb

/-- Phase-3 sweep at the `updateBombs` level. -/
theorem updateBombs_sweep (oracle : PowerUpOracle) (newId : Nat) (dt : Rat)
    (c r : Int) (st : EngineState) (hdt : 0 ≤ dt)
    (hall : ∀ b ∈ st.bombs, b.col = c ∧ b.row = r → b.timer ≤ 0) :
    ∀ b' ∈ (updateBombs oracle newId dt st).bombs,
      ¬(b'.col = c ∧ b'.row = r) := by
  apply updateBombsGo_sweep oracle newId dt c r hdt st.bombs.length st hall
  intro k hk b hb
  rw [List.get?_eq_none.mpr hk] at hb
  cases hb

/-- Claim C1 counterexample: bomb A (array index 0) detonates this tick and
bomb B (index 1) sits on a cell of A's blast ray, within range, with no
hard wall between — yet B does NOT detonate within the same update cycle:
the pass leaves B in the bomb list with its timer forced to 0 and exactly
one explosion (A's) spawned. B's index was already behind the descending
bomb loop when A exploded. -/
theorem C1_counterexample :
    (updateBombs noDropOracle 0 16 chainLateState).bombs =
      [{ id := 2, col := 6, row := 5, timer := 0, range := 1, ownerId := "player" }] ∧
    (updateBombs noDropOracle 0 16 chainLateState).explosions.length = 1 ∧
    (∃ e ∈ (updateBombs noDropOracle 0 16 chainLateState).explosions,
      ∃ cell ∈ e.cells, cell.col = 6 ∧ cell.row = 5) := by
  have hr11 : List.range' 1 1 = [1] := rfl
  have hEH : (TileType.EMPTY = TileType.WALL_HARD) = False := by
    simp only [eq_iff_iff, iff_false]; decide
  have hES : (TileType.EMPTY = TileType.WALL_SOFT) = False := by
    simp only [eq_iff_iff, iff_false]; decide
  have hpass : ∀ P : EngineState → Prop,
      P (updateBombsGo noDropOracle 0 16 chainLateState.bombs.length chainLateState) →
      P (updateBombs noDropOracle 0 16 chainLateState) := fun P h => h
  refine hpass (fun s => s.bombs = _ ∧ s.explosions.length = 1 ∧
    (∃ e ∈ s.explosions, ∃ cell ∈ e.cells, cell.col = 6 ∧ cell.row = 5)) ?_
  rw [show chainLateState.bombs.length = 1 + 1 from rfl]
  rw [updateBombsGo]
  norm_num [chainLateState, freshState, basePlayer]
  rw [show (1 : ℕ) = 0 + 1 from rfl, updateBombsGo]
  norm_num [explodeBomb, blastDirections, hr11, rayGo, emptyGrid, Grid.get, hEH, hES,
    noDropOracle, destroyBlock, GRID_ROWS, GRID_COLS, EXPLOSION_DURATION_MS]
  rw [updateBombsGo]
  refine ⟨rfl, rfl, ?_⟩
  refine ⟨_, List.mem_singleton.mpr rfl, ?_⟩
  refine ⟨⟨6, 5, true, .RIGHT⟩, ?_, rfl, rfl⟩
  simp

/-- Claim C1, amended: when bomb A detonates and bomb B is the first
blocking cell on one of A's blast rays (within range, nothing stopping the
ray earlier), B's fuse is forced to 0 and the ray stops at B (first
conjunct). A bomb whose cell holds only expired fuses is detonated and
removed by the next execution of the bomb-update pass, i.e. at the latest
one tick later (second conjunct). Detonation happens within the SAME
update cycle exactly when B precedes A in the bomb array, as in the third
conjunct's concrete run, where the swapped array order yields both
explosions in one pass. -/
theorem C1_chain_reaction_timing :
    (∀ (oracle : PowerUpOracle) (newId : Nat) (bomb : Bomb) (dx dy : Int)
        (dir : Direction) (k : Nat) (acc : BlastAcc) (idx : Nat),
      1 ≤ k → k ≤ bomb.range →
      (∀ i, 1 ≤ i → i < k →
        rayClear acc.grid acc.bombs (rayCol bomb dx i) (rayRow bomb dy i)) →
      cellInBounds (rayCol bomb dx k) (rayRow bomb dy k) →
      acc.grid.get (rayRow bomb dy k) (rayCol bomb dx k) ≠ TileType.WALL_HARD →
      acc.bombs.findIdx? (fun b : Bomb =>
        b.col = rayCol bomb dx k ∧ b.row = rayRow bomb dy k) = some idx →
      rayGo oracle newId bomb dx dy dir (List.range' 1 bomb.range) acc =
        { acc with
          cells := acc.cells ++
            (List.range' 1 (k - 1 + 1)).map (rayCellOf bomb dx dy dir),
          bombs := acc.bombs.set idx { acc.bombs.get! idx with timer := 0 } }) ∧
    (∀ (oracle : PowerUpOracle) (newId : Nat) (dt : Rat) (c r : Int)
        (st : EngineState), 0 ≤ dt →
      (∀ b ∈ st.bombs, b.col = c ∧ b.row = r → b.timer ≤ 0) →
      ∀ b' ∈ (updateBombs oracle newId dt st).bombs,
        ¬(b'.col = c ∧ b'.row = r)) ∧
    ((updateBombs noDropOracle 0 16 chainEarlyState).bombs = [] ∧
      (updateBombs noDropOracle 0 16 chainEarlyState).explosions.length = 2) := by
  refine ⟨?_, ?_, ?_⟩
  · intro oracle newId bomb dx dy dir k acc idx hk1 hk2 hclear hb hnh hfind
    exact rayGo_bomb_stop oracle newId bomb dx dy dir bomb.range 1 k acc idx hk1
      (by omega) hclear hb hnh hfind
  · intro oracle newId dt c r st hdt hall
    exact updateBombs_sweep oracle newId dt c r st hdt hall
  · have hr11 : List.range' 1 1 = [1] := rfl
    have hEH : (TileType.EMPTY = TileType.WALL_HARD) = False := by
      simp only [eq_iff_iff, iff_false]; decide
    have hES : (TileType.EMPTY = TileType.WALL_SOFT) = False := by
      simp only [eq_iff_iff, iff_false]; decide
    have hpass : ∀ P : EngineState → Prop,
        P (updateBombsGo noDropOracle 0 16 chainEarlyState.bombs.length chainEarlyState) →
        P (updateBombs noDropOracle 0 16 chainEarlyState) := fun P h => h
    refine hpass (fun s => s.bombs = [] ∧ s.explosions.length = 2) ?_
    rw [show chainEarlyState.bombs.length = 1 + 1 from rfl]
    rw [updateBombsGo]
    norm_num [chainEarlyState, freshState, basePlayer, explodeBomb, blastDirections,
      hr11, rayGo, emptyGrid, Grid.get, hEH, hES, noDropOracle, destroyBlock,
      GRID_ROWS, GRID_COLS, EXPLOSION_DURATION_MS]
    rw [show (1 : ℕ) = 0 + 1 from rfl, updateBombsGo]
    norm_num [explodeBomb, blastDirections, hr11, rayGo, emptyGrid, Grid.get, hEH, hES,
      noDropOracle, destroyBlock, GRID_ROWS, GRID_COLS, EXPLOSION_DURATION_MS]
    rw [updateBombsGo]
    exact ⟨rfl, rfl⟩

/-- Concrete instance for C1's amended claim, part one: `rayBomb`'s
rightward ray immediately meets the live bomb at (2,1); the walk stops
there and that bomb's fuse is forced to zero in place. -/
theorem C1_chain_reaction_timing_witness :
    rayGo noDropOracle 0 rayBomb 1 0 .RIGHT (List.range' 1 2) chainAcc =
      { chainAcc with
        cells := chainAcc.cells ++
          (List.range' 1 1).map (rayCellOf rayBomb 1 0 .RIGHT),
        bombs := chainAcc.bombs.set 0 { chainAcc.bombs.get! 0 with timer := 0 } } := by
  have h := C1_chain_reaction_timing.1 noDropOracle 0 rayBomb 1 0 .RIGHT 1 chainAcc 0
    (by norm_num) (by norm_num [rayBomb])
    (fun i h1 h2 => absurd h2 (by omega))
    (by unfold cellInBounds rayCol rayRow; decide)
    (by decide)
    (by decide)
  simpa using h

theorem pathNode_get!_mem :
    ∀ (l : List PathNode) (i : Nat), i < l.length → l.get! i ∈ l := by
  intro l
  induction l with
  | nil => intro i h; cases h
  | cons a rest ih =>
    intro i h
    cases i with
    | zero => exact List.mem_cons_self _ _
    | succ i => exact List.mem_cons_of_mem _ (ih i (by simpa using h))

theorem lowestFIndex_lt (l : List PathNode) (h : l ≠ []) :
    lowestFIndex l < l.length := by
  have hlen : 0 < l.length := List.length_pos.mpr h
  have main : ∀ (il : List Nat), (∀ i ∈ il, i < l.length) → ∀ (b : Nat),
      b < l.length →
      (il.foldl (fun best i =>
        if (l.get! i).f < (l.get! best).f then i else best) b) < l.length := by
    intro il
    induction il with
    | nil => intro _ b hb; exact hb
    | cons x rest ih =>
      intro hmem b hb
      simp only [List.foldl_cons]
      by_cases hx : (l.get! x).f < (l.get! b).f
      · rw [if_pos hx]
        exact ih (fun i hi => hmem i (List.mem_cons_of_mem _ hi)) x
          (hmem x (List.mem_cons_self _ _))
      · rw [if_neg hx]
        exact ih (fun i hi => hmem i (List.mem_cons_of_mem _ hi)) b hb
  exact main (List.range l.length) (fun i hi => List.mem_range.mp hi) 0 hlen

theorem isWalkable_no_bomb {c r : Int} {grid : Grid} {bombs : List GridPoint}
    (h : isWalkable c r grid bombs false = true) :
    ∀ b ∈ bombs, ¬(b.col = c ∧ b.row = r) := by
  intro b hb hpos
  unfold isWalkable at h
  split at h
  · cases h
  · split at h
    · cases h
    · split at h
      · cases h
      · rename_i hcond
        exact hcond ⟨by simp, List.any_eq_true.mpr ⟨b, hb, by simp [hpos.1, hpos.2]⟩⟩

theorem reconstruct_ne_nil (n : PathNode) : reconstruct n ≠ [] := by
  cases n with
  | mk x y g h f p =>
    cases p <;> simp [reconstruct]

theorem chainWalkable_dropLast {grid : Grid} {bombs : List GridPoint} :
    ∀ (n : PathNode), chainWalkable grid bombs n →
    ∀ q ∈ (reconstruct n).dropLast, isWalkable q.col q.row grid bombs false = true
  | .mk _ _ _ _ _ none, _, q, hq => by simp [reconstruct] at hq
  | .mk x y g h f (some par), hc, q, hq => by
      rw [reconstruct] at hq
      rw [List.dropLast_cons_of_ne_nil (reconstruct_ne_nil par)] at hq
      rcases List.mem_cons.mp hq with hq | hq
      · subst hq; exact hc.1
      · exact chainWalkable_dropLast par hc.2 q hq

theorem offerNeighbor_forall {grid : Grid} {bombs : List GridPoint}
    (target : GridPoint) (closedSet : List (Int × Int)) (current : PathNode)
    (openSet : List PathNode) (nb : Int × Int)
    (hcur : chainWalkable grid bombs current)
    (hopen : ∀ m ∈ openSet, chainWalkable grid bombs m) :
    ∀ m ∈ offerNeighbor target grid bombs closedSet current openSet nb,
      chainWalkable grid bombs m := by
  intro m hm
  unfold offerNeighbor at hm
  split at hm
  · exact hopen m hm
  · split at hm
    · exact hopen m hm
    · rename_i hwalk
      rw [not_not] at hwalk
      rcases hfind : openSet.find? (fun m => m.x = nb.1 ∧ m.y = nb.2) with _ | ex
      · rw [hfind] at hm
        simp only at hm
        rcases List.mem_append.mp hm with hm | hm
        · exact hopen m hm
        · rcases List.mem_singleton.mp hm with rfl
          exact ⟨hwalk, hcur⟩
      · rw [hfind] at hm
        simp only at hm
        split at hm
        · -- updateFirst branch
          have hupd : ∀ (l : List PathNode),
              (∀ m ∈ l, chainWalkable grid bombs m) →
              ∀ m ∈ updateFirst (fun m => m.x = nb.1 ∧ m.y = nb.2)
                (fun m => .mk m.x m.y (current.g + 1) m.h (current.g + 1 + m.h)
                  (some current)) l, chainWalkable grid bombs m := by
            intro l
            induction l with
            | nil => intro _ m hm; cases hm
            | cons a rest ihl =>
              intro hl m hm
              rw [updateFirst] at hm
              split at hm
              · rename_i hpa
                rcases List.mem_cons.mp hm with rfl | hm
                · have hax : a.x = nb.1 ∧ a.y = nb.2 := by
                    simpa using hpa
                  show isWalkable a.x a.y grid bombs false = true ∧ _
                  rw [hax.1, hax.2]
                  exact ⟨hwalk, hcur⟩
                · exact hl m (List.mem_cons_of_mem _ hm)
              · rcases List.mem_cons.mp hm with rfl | hm
                · exact hl m (List.mem_cons_self _ _)
                · exact ihl (fun m hmm => hl m (List.mem_cons_of_mem _ hmm)) m hm
          exact hupd openSet hopen m hm
        · exact hopen m hm

theorem offerFold_forall {grid : Grid} {bombs : List GridPoint}
    (target : GridPoint) (closedSet : List (Int × Int)) (current : PathNode)
    (hcur : chainWalkable grid bombs current) :
    ∀ (nbs : List (Int × Int)) (openSet : List PathNode),
    (∀ m ∈ openSet, chainWalkable grid bombs m) →
    ∀ m ∈ nbs.foldl (offerNeighbor target grid bombs closedSet current) openSet,
      chainWalkable grid bombs m := by
  intro nbs
  induction nbs with
  | nil => intro os h m hm; exact h m hm
  | cons nb rest ih =>
    intro os h m hm
    rw [List.foldl_cons] at hm
    exact ih _ (offerNeighbor_forall target closedSet current os nb hcur h) m hm

theorem findPathLoop_tail_walkable (target : GridPoint) (grid : Grid)
    (bombs : List GridPoint) :
    ∀ (fuel : Nat) (openSet : List PathNode) (closedSet : List (Int × Int))
      (path : List GridPoint),
    (∀ n ∈ openSet, chainWalkable grid bombs n) →
    findPathLoop target grid bombs fuel openSet closedSet = some path →
    ∀ q ∈ path.tail, isWalkable q.col q.row grid bombs false = true := by
  intro fuel
  induction fuel with
  | zero =>
    intro openSet closedSet path hinv heq
    cases openSet with
    | nil => cases heq
    | cons a rest => cases heq
  | succ fuel ih =>
    intro openSet closedSet path hinv heq
    cases hos : openSet with
    | nil => subst hos; cases heq
    | cons a rest =>
      subst hos
      rw [findPathLoop] at heq
      set current := (a :: rest).get! (lowestFIndex (a :: rest)) with hcur
      have hmem : current ∈ a :: rest :=
        pathNode_get!_mem _ _ (lowestFIndex_lt _ (by simp))
      split at heq
      · injection heq with heq
        subst heq
        rw [List.tail_reverse]
        intro q hq
        have hq' := List.mem_reverse.mp hq
        exact chainWalkable_dropLast current (hinv current hmem) q hq'
      · exact ih _ _ path
          (offerFold_forall target _ current (hinv current hmem) _ _
            (fun m hm => hinv m (List.eraseIdx_subset _ _ hm)))
          heq

/-- Claim C3 counterexample: with a transient obstacle (bomb) on the start
cell itself, `findPath` returns a path whose first cell (0,0) is occupied
by that obstacle — the start node is enqueued without any walkability
check. -/
theorem C3_counterexample :
    findPath ⟨0, 0⟩ ⟨1, 0⟩ emptyGrid [⟨0, 0⟩] =
      some [⟨0, 0⟩, ⟨1, 0⟩] ∧
    (⟨0, 0⟩ : GridPoint) ∈ [(⟨0, 0⟩ : GridPoint), ⟨1, 0⟩] ∧
    (⟨0, 0⟩ : GridPoint) ∈ [(⟨0, 0⟩ : GridPoint)] := by
  refine ⟨by decide, by decide, by decide⟩

/-- Claim C3, amended: every cell of a returned path EXCEPT the first (the
start cell, which is never walkability-checked) is free of the supplied
transient obstacles: each non-head path cell entered the open set only
after passing `isWalkable`, whose bomb scan rejects occupied cells. -/
theorem C3_path_avoids_obstacles (start target : GridPoint) (grid : Grid)
    (bombs : List GridPoint) (path : List GridPoint)
    (h : findPath start target grid bombs = some path) :
    ∀ p ∈ path.tail, ∀ b ∈ bombs, ¬(b.col = p.col ∧ b.row = p.row) := by
  intro p hp b hb
  have hw := findPathLoop_tail_walkable target grid bombs MAX_ITERATIONS
    [.mk start.col start.row 0 (heuristic start target) (heuristic start target) none]
    [] path
    (by
      intro n hn
      rcases List.mem_singleton.mp hn with rfl
      trivial)
    h p hp
  exact isWalkable_no_bomb hw b hb

/-- Concrete instance for C3's amended claim: a path returned around a
bomb at (5,5); its non-head cell (1,0) is not the bomb cell. -/
theorem C3_path_avoids_obstacles_witness :
    findPath ⟨0, 0⟩ ⟨1, 0⟩ emptyGrid [⟨5, 5⟩] = some [⟨0, 0⟩, ⟨1, 0⟩] ∧
    ¬((⟨5, 5⟩ : GridPoint).col = (⟨1, 0⟩ : GridPoint).col ∧
      (⟨5, 5⟩ : GridPoint).row = (⟨1, 0⟩ : GridPoint).row) := by
  have hfp : findPath ⟨0, 0⟩ ⟨1, 0⟩ emptyGrid [⟨5, 5⟩] =
      some [⟨0, 0⟩, ⟨1, 0⟩] := by decide
  exact ⟨hfp, C3_path_avoids_obstacles ⟨0, 0⟩ ⟨1, 0⟩ emptyGrid [⟨5, 5⟩]
    [⟨0, 0⟩, ⟨1, 0⟩] hfp ⟨1, 0⟩ (by decide) ⟨5, 5⟩ (by decide)⟩

theorem walkable_empty (c r : Int) :
    isWalkable c r emptyGrid [] false = true ↔ inB (c, r) := by
  unfold isWalkable inB emptyGrid Grid.get
  constructor
  · intro h
    split at h
    · cases h
    · rename_i hB
      push_neg at hB
      exact ⟨hB.1, hB.2.1, hB.2.2.1, hB.2.2.2⟩
  · intro ⟨h1, h2, h3, h4⟩
    rw [if_neg (by push_neg; exact ⟨h1, h2, h3, h4⟩)]
    simp

theorem manh_triangle (p q z : Int × Int) : manh p z ≤ manh p q + manh q z := by
  unfold manh
  have h1 : (p.1 - z.1).natAbs ≤ (p.1 - q.1).natAbs + (q.1 - z.1).natAbs := by
    have : p.1 - z.1 = (p.1 - q.1) + (q.1 - z.1) := by ring
    rw [this]
    exact Int.natAbs_add_le _ _
  have h2 : (p.2 - z.2).natAbs ≤ (p.2 - q.2).natAbs + (q.2 - z.2).natAbs := by
    have : p.2 - z.2 = (p.2 - q.2) + (q.2 - z.2) := by ring
    rw [this]
    exact Int.natAbs_add_le _ _
  omega

theorem manh_self (p : Int × Int) : manh p p = 0 := by
  unfold manh
  simp

theorem md_eq_manh_zero (p : Int × Int) : md p = manh p (0, 0) := by
  unfold md manh
  simp

theorem heuristic_eq_manh (x y : Int) (t : GridPoint) :
    heuristic ⟨x, y⟩ t = manh (x, y) (t.col, t.row) := rfl

theorem adjacent_md_le {p q : Int × Int} (h : q ∈ adjacentCells p) :
    md q ≤ md p + 1 ∧ md p ≤ md q + 1 := by
  simp only [adjacentCells, List.mem_cons, List.mem_singleton,
    List.not_mem_nil, or_false] at h
  unfold md
  rcases h with rfl | rfl | rfl | rfl <;> constructor <;> simp <;> omega

theorem nodeOK_inB {t : GridPoint} :
    ∀ {n : PathNode}, nodeOK t n → inB (posOf n)
  | .mk x y g h f none, hok => by
      obtain ⟨-, -, hx, hy, -⟩ := hok
      subst hx; subst hy
      show inB (0, 0)
      exact ⟨by norm_num, by norm_num [GRID_COLS], by norm_num, by norm_num [GRID_ROWS]⟩
  | .mk x y g h f (some p), hok => hok.2.2.2.2.1

theorem nodeOK_g_ge {t : GridPoint} :
    ∀ {n : PathNode}, nodeOK t n → md (posOf n) ≤ n.g
  | .mk x y g h f none, hok => by
      obtain ⟨-, -, hx, hy, hg⟩ := hok
      subst hx; subst hy; subst hg
      show md (0, 0) ≤ 0
      simp [md]
  | .mk x y g h f (some p), hok => by
      have hrec := nodeOK_g_ge hok.2.2.2.2.2
      have hadj := (adjacent_md_le hok.2.2.2.1).1
      have hg : g = p.g + 1 := hok.2.2.1
      show md (x, y) ≤ g
      have : md (x, y) ≤ md (posOf p) + 1 := hadj
      omega

theorem nodeOK_len {t : GridPoint} :
    ∀ {n : PathNode}, nodeOK t n → (reconstruct n).length = n.g + 1
  | .mk x y g h f none, hok => by
      obtain ⟨-, -, -, -, hg⟩ := hok
      subst hg
      simp [reconstruct, PathNode.g]
  | .mk x y g h f (some p), hok => by
      have hrec := nodeOK_len hok.2.2.2.2.2
      have hg : g = p.g + 1 := hok.2.2.1
      show (reconstruct (.mk x y g h f (some p))).length = g + 1
      rw [reconstruct]
      simp only [List.length_cons, hrec, hg]

theorem pathNode_get!_eq :
    ∀ (l : List PathNode) (i : Nat) (h : i < l.length), l.get! i = l.get ⟨i, h⟩
  | _ :: _, 0, _ => rfl
  | _ :: l, i + 1, h => pathNode_get!_eq l i (by simpa using h)

theorem lowestFIndex_min (l : List PathNode) (hne : l ≠ []) :
    ∀ n ∈ l, (l.get! (lowestFIndex l)).f ≤ n.f := by
  have main : ∀ (il : List Nat) (b : Nat),
      (l.get! (il.foldl (fun best i =>
        if (l.get! i).f < (l.get! best).f then i else best) b)).f ≤ (l.get! b).f ∧
      ∀ i ∈ il, (l.get! (il.foldl (fun best i =>
        if (l.get! i).f < (l.get! best).f then i else best) b)).f ≤ (l.get! i).f := by
    intro il
    induction il with
    | nil => intro b; exact ⟨le_refl _, fun i hi => absurd hi (List.not_mem_nil i)⟩
    | cons x rest ih =>
      intro b
      simp only [List.foldl_cons]
      have hstep : (l.get! (if (l.get! x).f < (l.get! b).f then x else b)).f ≤ (l.get! b).f ∧
          (l.get! (if (l.get! x).f < (l.get! b).f then x else b)).f ≤ (l.get! x).f := by
        by_cases hx : (l.get! x).f < (l.get! b).f
        · rw [if_pos hx]; exact ⟨le_of_lt hx, le_refl _⟩
        · rw [if_neg hx]; exact ⟨le_refl _, le_of_not_lt hx⟩
      obtain ⟨ih1, ih2⟩ := ih (if (l.get! x).f < (l.get! b).f then x else b)
      refine ⟨le_trans ih1 hstep.1, ?_⟩
      intro i hi
      rcases List.mem_cons.mp hi with rfl | hi
      · exact le_trans ih1 hstep.2
      · exact ih2 i hi
  intro n hn
  obtain ⟨⟨i, hilen⟩, hget⟩ := List.mem_iff_get.mp hn
  have := (main (List.range l.length) 0).2 i (List.mem_range.mpr hilen)
  rw [pathNode_get!_eq l i hilen, hget] at this
  exact this

theorem nodeOK_hf {t : GridPoint} :
    ∀ {n : PathNode}, nodeOK t n →
      n.h = manh (posOf n) (t.col, t.row) ∧ n.f = n.g + n.h
  | .mk x y g h f none, hok => ⟨hok.1, hok.2.1⟩
  | .mk x y g h f (some p), hok => ⟨hok.1, hok.2.1⟩

theorem manh_zero_left (z : Int × Int) : manh (0, 0) z = md z := by
  unfold manh md
  simp [Int.natAbs_neg]

theorem lpath_zero (z : Int × Int) (hz : inB z) : lpath z 0 = (0, 0) := by
  unfold lpath
  rw [if_pos (by exact_mod_cast hz.1)]
  simp

theorem lpath_last (z : Int × Int) (hz : inB z) : lpath z (md z) = z := by
  obtain ⟨h1, -, h3, -⟩ := hz
  unfold lpath md
  by_cases hle : ((z.1.natAbs + z.2.natAbs : Nat) : Int) ≤ z.1
  · rw [if_pos hle, Prod.ext_iff]
    refine ⟨?_, ?_⟩
    · show ((z.1.natAbs + z.2.natAbs : Nat) : Int) = z.1
      omega
    · show (0 : Int) = z.2
      omega
  · rw [if_neg hle, Prod.ext_iff]
    refine ⟨rfl, ?_⟩
    show ((z.1.natAbs + z.2.natAbs : Nat) : Int) - z.1 = z.2
    omega

theorem lpath_inB (z : Int × Int) (hz : inB z) (i : Nat) (hi : i ≤ md z) :
    inB (lpath z i) := by
  obtain ⟨h1, h2, h3, h4⟩ := hz
  unfold md at hi
  unfold lpath
  by_cases hle : (i : Int) ≤ z.1
  · rw [if_pos hle]
    refine ⟨?_, ?_, ?_, ?_⟩
    · show (0 : Int) ≤ (i : Int)
      omega
    · show (i : Int) < GRID_COLS
      unfold GRID_COLS at h2 ⊢
      omega
    · exact le_refl 0
    · show (0 : Int) < GRID_ROWS
      unfold GRID_ROWS at h4 ⊢
      omega
  · rw [if_neg hle]
    refine ⟨h1, h2, ?_, ?_⟩
    · show (0 : Int) ≤ (i : Int) - z.1
      omega
    · show (i : Int) - z.1 < GRID_ROWS
      unfold GRID_ROWS at h4 ⊢
      omega

theorem lpath_md (z : Int × Int) (hz : inB z) (i : Nat) (hi : i ≤ md z) :
    md (lpath z i) = i := by
  obtain ⟨h1, h2, h3, h4⟩ := hz
  unfold md at hi ⊢
  unfold lpath
  by_cases hle : (i : Int) ≤ z.1
  · rw [if_pos hle]
    show (i : Int).natAbs + (0 : Int).natAbs = i
    omega
  · rw [if_neg hle]
    show z.1.natAbs + ((i : Int) - z.1).natAbs = i
    omega

theorem lpath_manh (z : Int × Int) (hz : inB z) (i : Nat) (hi : i ≤ md z) :
    manh (lpath z i) z = md z - i := by
  obtain ⟨h1, h2, h3, h4⟩ := hz
  unfold md at hi ⊢
  unfold lpath manh
  by_cases hle : (i : Int) ≤ z.1
  · rw [if_pos hle]
    show ((i : Int) - z.1).natAbs + ((0 : Int) - z.2).natAbs = _
    omega
  · rw [if_neg hle]
    show (z.1 - z.1).natAbs + ((i : Int) - z.1 - z.2).natAbs = _
    omega

theorem lpath_adj (z : Int × Int) (hz : inB z) (i : Nat) (hi : i < md z) :
    lpath z (i + 1) ∈ adjacentCells (lpath z i) := by
  obtain ⟨h1, h2, h3, h4⟩ := hz
  unfold md at hi
  by_cases hle1 : (((i + 1 : Nat)) : Int) ≤ z.1
  · have e1 : lpath z (i + 1) = (((i + 1 : Nat) : Int), 0) := by
      unfold lpath; rw [if_pos hle1]
    have e2 : lpath z i = (((i : Nat) : Int), 0) := by
      unfold lpath
      rw [if_pos (by push_cast at hle1 ⊢; omega)]
    rw [e1, e2]
    unfold adjacentCells
    simp only [List.mem_cons, List.mem_singleton, List.not_mem_nil, or_false]
    left
    rw [Prod.ext_iff]
    exact ⟨by push_cast; ring, rfl⟩
  · by_cases hle2 : ((i : Nat) : Int) ≤ z.1
    · have e1 : lpath z (i + 1) = (z.1, ((i + 1 : Nat) : Int) - z.1) := by
        unfold lpath; rw [if_neg hle1]
      have e2 : lpath z i = (((i : Nat) : Int), 0) := by
        unfold lpath; rw [if_pos hle2]
      rw [e1, e2]
      unfold adjacentCells
      simp only [List.mem_cons, List.mem_singleton, List.not_mem_nil, or_false]
      right; right; left
      rw [Prod.ext_iff]
      refine ⟨by push_cast at hle1 ⊢; omega, by push_cast at hle1 ⊢; omega⟩
    · have e1 : lpath z (i + 1) = (z.1, ((i + 1 : Nat) : Int) - z.1) := by
        unfold lpath; rw [if_neg hle1]
      have e2 : lpath z i = (z.1, ((i : Nat) : Int) - z.1) := by
        unfold lpath; rw [if_neg hle2]
      rw [e1, e2]
      unfold adjacentCells
      simp only [List.mem_cons, List.mem_singleton, List.not_mem_nil, or_false]
      right; right; left
      rw [Prod.ext_iff]
      refine ⟨rfl, by push_cast; ring⟩

theorem ainv_witness {t : GridPoint} {openS : List PathNode}
    {closedS : List (Int × Int)} (hinv : AInv t openS closedS)
    (z : Int × Int) (hzB : inB z) (hzc : z ∉ closedS) :
    ∃ n ∈ openS, n.g = md (posOf n) ∧ n.g + manh (posOf n) z = md z := by
  have hex : ∃ i, lpath z i ∉ closedS := ⟨md z, by rw [lpath_last z hzB]; exact hzc⟩
  have hi0le : Nat.find hex ≤ md z := Nat.find_min' hex (by rw [lpath_last z hzB]; exact hzc)
  have hi0 : lpath z (Nat.find hex) ∉ closedS := Nat.find_spec hex
  cases hfind : Nat.find hex with
  | zero =>
    rw [hfind, lpath_zero z hzB] at hi0
    rcases hinv.start with hs | ⟨n, hn, hpos, hg⟩
    · exact absurd hs hi0
    · have hg0 : n.g = 0 := Nat.le_zero.mp hg
      refine ⟨n, hn, ?_, ?_⟩
      · rw [hg0, hpos]
        simp [md]
      · rw [hg0, hpos, manh_zero_left]
        omega
  | succ j =>
    have hj : lpath z j ∈ closedS := by
      by_contra hcon
      have := Nat.find_min hex (by omega : j < Nat.find hex)
      exact this hcon
    have hjlt : j < md z := by omega
    have hadj : lpath z (j + 1) ∈ adjacentCells (lpath z j) := lpath_adj z hzB j hjlt
    have hinb : inB (lpath z (j + 1)) := lpath_inB z hzB (j + 1) (by omega)
    have hnc : lpath z (j + 1) ∉ closedS := by rw [hfind] at hi0; exact hi0
    obtain ⟨n, hn, hpos, hg⟩ := hinv.frontier (lpath z j) hj (lpath z (j + 1)) hadj hinb hnc
    have hge : md (posOf n) ≤ n.g := nodeOK_g_ge (hinv.nodes n hn)
    have hmdj : md (lpath z j) = j := lpath_md z hzB j (by omega)
    have hmdj1 : md (lpath z (j + 1)) = j + 1 := lpath_md z hzB (j + 1) (by omega)
    have hgeq : n.g = md (posOf n) := by
      rw [hpos] at hge ⊢
      rw [hmdj] at hg
      omega
    refine ⟨n, hn, hgeq, ?_⟩
    rw [hgeq, hpos, hmdj1, lpath_manh z hzB (j + 1) (by omega)]
    omega

theorem pop_g_eq {t : GridPoint} {openS : List PathNode}
    {closedS : List (Int × Int)} (hinv : AInv t openS closedS)
    (c : PathNode) (hc : c ∈ openS) (hmin : ∀ n ∈ openS, c.f ≤ n.f) :
    c.g = md (posOf c) := by
  have hcB : inB (posOf c) := nodeOK_inB (hinv.nodes c hc)
  have hcNC : posOf c ∉ closedS := hinv.notClosed c hc
  obtain ⟨n, hn, hgeq, hsum⟩ := ainv_witness hinv (posOf c) hcB hcNC
  have hchf := nodeOK_hf (hinv.nodes c hc)
  have hnhf := nodeOK_hf (hinv.nodes n hn)
  have htri : n.h ≤ manh (posOf n) (posOf c) + manh (posOf c) (t.col, t.row) := by
    rw [hnhf.1]
    exact manh_triangle _ _ _
  have hfn : n.f ≤ md (posOf c) + manh (posOf c) (t.col, t.row) := by
    rw [hnhf.2]
    omega
  have hfc := hmin n hn
  have hge : md (posOf c) ≤ c.g := nodeOK_g_ge (hinv.nodes c hc)
  have hcf : c.f = c.g + manh (posOf c) (t.col, t.row) := by
    rw [hchf.2, hchf.1]
  omega

theorem mem_updateFirst_of_not {p : PathNode → Bool} {f : PathNode → PathNode} :
    ∀ {l : List PathNode} {m : PathNode}, m ∈ l → ¬p m = true →
      m ∈ updateFirst p f l := by
  intro l
  induction l with
  | nil => intro m hm; cases hm
  | cons a rest ih =>
    intro m hm hnp
    rw [updateFirst]
    split
    · rename_i hpa
      rcases List.mem_cons.mp hm with rfl | hm
      · exact absurd hpa hnp
      · exact List.mem_cons_of_mem _ hm
    · rcases List.mem_cons.mp hm with rfl | hm
      · exact List.mem_cons_self _ _
      · exact List.mem_cons_of_mem _ (ih hm hnp)

theorem updateFirst_replaced (p : PathNode → Bool) (f : PathNode → PathNode) :
    ∀ {l : List PathNode}, (∃ m ∈ l, p m = true) →
      ∃ m ∈ l, p m = true ∧ f m ∈ updateFirst p f l := by
  intro l
  induction l with
  | nil => intro ⟨m, hm, _⟩; cases hm
  | cons a rest ih =>
    intro ⟨m, hm, hpm⟩
    rw [updateFirst]
    by_cases hpa : p a = true
    · rw [if_pos hpa]
      exact ⟨a, List.mem_cons_self _ _, hpa, List.mem_cons_self _ _⟩
    · rw [if_neg hpa]
      have hm' : m ∈ rest := by
        rcases List.mem_cons.mp hm with rfl | hm'
        · exact absurd hpm hpa
        · exact hm'
      obtain ⟨m0, hm0, hpm0, hf⟩ := ih ⟨m, hm', hpm⟩
      exact ⟨m0, List.mem_cons_of_mem _ hm0, hpm0, List.mem_cons_of_mem _ hf⟩

theorem updateFirst_mem_char {p : PathNode → Bool} {f : PathNode → PathNode} :
    ∀ {l : List PathNode} {m : PathNode}, m ∈ updateFirst p f l →
      m ∈ l ∨ ∃ m0 ∈ l, p m0 = true ∧ m = f m0 := by
  intro l
  induction l with
  | nil => intro m hm; cases hm
  | cons a rest ih =>
    intro m hm
    rw [updateFirst] at hm
    split at hm
    · rename_i hpa
      rcases List.mem_cons.mp hm with rfl | hm
      · exact Or.inr ⟨a, List.mem_cons_self _ _, hpa, rfl⟩
      · exact Or.inl (List.mem_cons_of_mem _ hm)
    · rcases List.mem_cons.mp hm with rfl | hm
      · exact Or.inl (List.mem_cons_self _ _)
      · rcases ih hm with h | ⟨m0, hm0, hpm0, hf⟩
        · exact Or.inl (List.mem_cons_of_mem _ h)
        · exact Or.inr ⟨m0, List.mem_cons_of_mem _ hm0, hpm0, hf⟩

theorem updateFirst_map_pos (p : PathNode → Bool) (f : PathNode → PathNode)
    (hf : ∀ m, p m = true → posOf (f m) = posOf m) :
    ∀ (l : List PathNode),
      (updateFirst p f l).map posOf = l.map posOf := by
  intro l
  induction l with
  | nil => rfl
  | cons a rest ih =>
    rw [updateFirst]
    split
    · rename_i hpa
      simp only [List.map_cons, hf a hpa]
    · simp only [List.map_cons, ih]

theorem mem_pos_unique :
    ∀ {l : List PathNode}, (l.map posOf).Nodup →
      ∀ {a b : PathNode}, a ∈ l → b ∈ l → posOf a = posOf b → a = b := by
  intro l
  induction l with
  | nil => intro _ a b ha; cases ha
  | cons x rest ih =>
    intro hnd a b ha hb hab
    rw [List.map_cons, List.nodup_cons] at hnd
    rcases List.mem_cons.mp ha with rfl | ha2 <;>
      rcases List.mem_cons.mp hb with rfl | hb2
    · rfl
    · exfalso; apply hnd.1; rw [hab]; exact List.mem_map_of_mem posOf hb2
    · exfalso; apply hnd.1; rw [← hab]; exact List.mem_map_of_mem posOf ha2
    · exact ih hnd.2 ha2 hb2 hab

theorem offer_pred_iff (nb : Int × Int) (m : PathNode) :
    (decide (m.x = nb.1 ∧ m.y = nb.2) = true) ↔ posOf m = (nb.1, nb.2) := by
  rw [decide_eq_true_iff]
  unfold posOf
  constructor
  · intro ⟨h1, h2⟩; rw [h1, h2]
  · intro h
    exact ⟨congrArg Prod.fst h, congrArg Prod.snd h⟩

theorem offerNeighbor_keep_closed {t : GridPoint} {grid : Grid}
    {bombs : List GridPoint} {closedS : List (Int × Int)} {current : PathNode}
    {os : List PathNode} {nb : Int × Int} (h1 : (nb.1, nb.2) ∈ closedS) :
    offerNeighbor t grid bombs closedS current os nb = os := by
  unfold offerNeighbor
  rw [if_pos h1]

theorem offerNeighbor_keep_notwalk {t : GridPoint} {grid : Grid}
    {bombs : List GridPoint} {closedS : List (Int × Int)} {current : PathNode}
    {os : List PathNode} {nb : Int × Int}
    (h2 : ¬isWalkable nb.1 nb.2 grid bombs false = true) :
    offerNeighbor t grid bombs closedS current os nb = os := by
  unfold offerNeighbor
  by_cases h1 : (nb.1, nb.2) ∈ closedS
  · rw [if_pos h1]
  · rw [if_neg h1, if_pos h2]

theorem offerNeighbor_push {t : GridPoint} {grid : Grid}
    {bombs : List GridPoint} {closedS : List (Int × Int)} {current : PathNode}
    {os : List PathNode} {nb : Int × Int}
    (h1 : (nb.1, nb.2) ∉ closedS) (h2 : isWalkable nb.1 nb.2 grid bombs false = true)
    (h3 : os.find? (fun m => m.x = nb.1 ∧ m.y = nb.2) = none) :
    offerNeighbor t grid bombs closedS current os nb =
      os ++ [.mk nb.1 nb.2 (current.g + 1) (heuristic ⟨nb.1, nb.2⟩ t)
        (current.g + 1 + heuristic ⟨nb.1, nb.2⟩ t) (some current)] := by
  unfold offerNeighbor
  rw [if_neg h1, if_neg (by simp [h2]), h3]

theorem offerNeighbor_update {t : GridPoint} {grid : Grid}
    {bombs : List GridPoint} {closedS : List (Int × Int)} {current : PathNode}
    {os : List PathNode} {nb : Int × Int} {ex : PathNode}
    (h1 : (nb.1, nb.2) ∉ closedS) (h2 : isWalkable nb.1 nb.2 grid bombs false = true)
    (h3 : os.find? (fun m => m.x = nb.1 ∧ m.y = nb.2) = some ex)
    (h4 : current.g + 1 < ex.g) :
    offerNeighbor t grid bombs closedS current os nb =
      updateFirst (fun m => m.x = nb.1 ∧ m.y = nb.2)
        (fun m => .mk m.x m.y (current.g + 1) m.h (current.g + 1 + m.h)
          (some current)) os := by
  unfold offerNeighbor
  rw [if_neg h1, if_neg (by simp [h2]), h3]
  simp only
  rw [if_pos h4]

theorem offerNeighbor_keep_noworse {t : GridPoint} {grid : Grid}
    {bombs : List GridPoint} {closedS : List (Int × Int)} {current : PathNode}
    {os : List PathNode} {nb : Int × Int} {ex : PathNode}
    (h1 : (nb.1, nb.2) ∉ closedS) (h2 : isWalkable nb.1 nb.2 grid bombs false = true)
    (h3 : os.find? (fun m => m.x = nb.1 ∧ m.y = nb.2) = some ex)
    (h4 : ¬current.g + 1 < ex.g) :
    offerNeighbor t grid bombs closedS current os nb = os := by
  unfold offerNeighbor
  rw [if_neg h1, if_neg (by simp [h2]), h3]
  simp only
  rw [if_neg h4]

theorem offer_OInv {t : GridPoint} {closedS : List (Int × Int)} {current : PathNode}
    (hcur : nodeOK t current) {os : List PathNode} (hos : OInv t closedS os)
    {nb : Int × Int} (hnb : nb ∈ adjacentCells (posOf current)) :
    OInv t closedS (offerNeighbor t emptyGrid [] closedS current os nb) := by
  obtain ⟨hnodes, hdis, hnc⟩ := hos
  by_cases h1 : (nb.1, nb.2) ∈ closedS
  · rw [offerNeighbor_keep_closed h1]; exact ⟨hnodes, hdis, hnc⟩
  by_cases h2 : isWalkable nb.1 nb.2 emptyGrid [] false = true
  · rcases hfind : os.find? (fun m => m.x = nb.1 ∧ m.y = nb.2) with _ | ex
    · rw [offerNeighbor_push h1 h2 hfind]
      refine ⟨?_, ?_, ?_⟩
      · intro n hn
        rcases List.mem_append.mp hn with hn | hn
        · exact hnodes n hn
        · rcases List.mem_singleton.mp hn with rfl
          exact ⟨rfl, rfl, rfl, hnb, (walkable_empty nb.1 nb.2).mp h2, hcur⟩
      · simp only [List.map_append, List.map_cons, List.map_nil]
        refine List.Nodup.append hdis (List.nodup_singleton _) ?_
        intro p hp hq
        rcases List.mem_singleton.mp hq with rfl
        obtain ⟨m, hm, hpm⟩ := List.mem_map.mp hp
        exact List.find?_eq_none.mp hfind m hm ((offer_pred_iff nb m).mpr hpm)
      · intro n hn
        rcases List.mem_append.mp hn with hn | hn
        · exact hnc n hn
        · rcases List.mem_singleton.mp hn with rfl
          exact h1
    · by_cases h4 : current.g + 1 < ex.g
      · rw [offerNeighbor_update h1 h2 hfind h4]
        refine ⟨?_, ?_, ?_⟩
        · intro n hn
          rcases updateFirst_mem_char hn with hn | ⟨m0, hm0, hpm0, rfl⟩
          · exact hnodes n hn
          · have hok := hnodes m0 hm0
            have hpos0 : posOf m0 = (nb.1, nb.2) := (offer_pred_iff nb m0).mp hpm0
            refine ⟨?_, rfl, rfl, ?_, ?_, hcur⟩
            · rw [heuristic_eq_manh]
              exact (nodeOK_hf hok).1
            · show posOf m0 ∈ _
              rw [hpos0]
              exact hnb
            · show inB (posOf m0)
              exact nodeOK_inB hok
        · rw [updateFirst_map_pos (fun m => decide (m.x = nb.1 ∧ m.y = nb.2))
            (fun m => PathNode.mk m.x m.y (current.g + 1) m.h
              (current.g + 1 + m.h) (some current)) (fun m _ => rfl)]
          exact hdis
        · intro n hn
          rcases updateFirst_mem_char hn with hn | ⟨m0, hm0, hpm0, rfl⟩
          · exact hnc n hn
          · show posOf m0 ∉ closedS
            exact hnc m0 hm0
      · rw [offerNeighbor_keep_noworse h1 h2 hfind h4]
        exact ⟨hnodes, hdis, hnc⟩
  · rw [offerNeighbor_keep_notwalk h2]
    exact ⟨hnodes, hdis, hnc⟩

theorem offer_preserve {t : GridPoint} {closedS : List (Int × Int)}
    {current : PathNode} {os : List PathNode} (hdis : (os.map posOf).Nodup)
    {nb : Int × Int} {q : Int × Int} {v : Nat}
    (hw : ∃ n ∈ os, posOf n = q ∧ n.g ≤ v) :
    ∃ n ∈ offerNeighbor t emptyGrid [] closedS current os nb,
      posOf n = q ∧ n.g ≤ v := by
  obtain ⟨n, hn, hq, hgv⟩ := hw
  by_cases h1 : (nb.1, nb.2) ∈ closedS
  · rw [offerNeighbor_keep_closed h1]; exact ⟨n, hn, hq, hgv⟩
  by_cases h2 : isWalkable nb.1 nb.2 emptyGrid [] false = true
  · rcases hfind : os.find? (fun m => m.x = nb.1 ∧ m.y = nb.2) with _ | ex
    · rw [offerNeighbor_push h1 h2 hfind]
      exact ⟨n, List.mem_append_left _ hn, hq, hgv⟩
    · by_cases h4 : current.g + 1 < ex.g
      · rw [offerNeighbor_update h1 h2 hfind h4]
        by_cases hpn : posOf n = (nb.1, nb.2)
        · have hexmem := List.mem_of_find?_eq_some hfind
          have hexpred := List.find?_some hfind
          have hexn : ex = n := mem_pos_unique hdis hexmem hn
            (((offer_pred_iff nb ex).mp hexpred).trans hpn.symm)
          obtain ⟨m0, hm0, hpm0, hfm0⟩ := updateFirst_replaced
            (fun m => decide (m.x = nb.1 ∧ m.y = nb.2))
            (fun m => PathNode.mk m.x m.y (current.g + 1) m.h
              (current.g + 1 + m.h) (some current))
            ⟨ex, hexmem, hexpred⟩
          have hm0n : m0 = n := mem_pos_unique hdis hm0 hn
            (((offer_pred_iff nb m0).mp hpm0).trans hpn.symm)
          refine ⟨_, hfm0, ?_, ?_⟩
          · show posOf m0 = q
            rw [hm0n]; exact hq
          · show current.g + 1 ≤ v
            rw [hexn] at h4
            omega
        · have hnp : ¬(decide (n.x = nb.1 ∧ n.y = nb.2) = true) := by
            rw [offer_pred_iff]; exact hpn
          exact ⟨n, mem_updateFirst_of_not hn hnp, hq, hgv⟩
      · rw [offerNeighbor_keep_noworse h1 h2 hfind h4]
        exact ⟨n, hn, hq, hgv⟩
  · rw [offerNeighbor_keep_notwalk h2]
    exact ⟨n, hn, hq, hgv⟩

theorem offer_success {t : GridPoint} {closedS : List (Int × Int)}
    {current : PathNode} {os : List PathNode} {nb : Int × Int}
    (h1 : (nb.1, nb.2) ∉ closedS)
    (h2 : isWalkable nb.1 nb.2 emptyGrid [] false = true) :
    ∃ n ∈ offerNeighbor t emptyGrid [] closedS current os nb,
      posOf n = (nb.1, nb.2) ∧ n.g ≤ current.g + 1 := by
  rcases hfind : os.find? (fun m => m.x = nb.1 ∧ m.y = nb.2) with _ | ex
  · rw [offerNeighbor_push h1 h2 hfind]
    exact ⟨_, List.mem_append_right _ (List.mem_singleton_self _), rfl, le_refl _⟩
  · by_cases h4 : current.g + 1 < ex.g
    · rw [offerNeighbor_update h1 h2 hfind h4]
      have hexpred := List.find?_some hfind
      obtain ⟨m0, hm0, hpm0, hfm0⟩ := updateFirst_replaced
        (fun m => decide (m.x = nb.1 ∧ m.y = nb.2))
        (fun m => PathNode.mk m.x m.y (current.g + 1) m.h
          (current.g + 1 + m.h) (some current))
        ⟨ex, List.mem_of_find?_eq_some hfind, hexpred⟩
      exact ⟨_, hfm0, (offer_pred_iff nb m0).mp hpm0, le_refl _⟩
    · rw [offerNeighbor_keep_noworse h1 h2 hfind h4]
      have hexpred := List.find?_some hfind
      refine ⟨ex, List.mem_of_find?_eq_some hfind,
        (offer_pred_iff nb ex).mp hexpred, ?_⟩
      omega

theorem offerFold_OInv {t : GridPoint} {closedS : List (Int × Int)}
    {current : PathNode} (hcur : nodeOK t current) :
    ∀ (nbs : List (Int × Int)) (os : List PathNode), OInv t closedS os →
      (∀ nb ∈ nbs, nb ∈ adjacentCells (posOf current)) →
      OInv t closedS
        (nbs.foldl (offerNeighbor t emptyGrid [] closedS current) os) := by
  intro nbs
  induction nbs with
  | nil => intro os h _; exact h
  | cons nb rest ih =>
    intro os hos hadj
    rw [List.foldl_cons]
    exact ih _ (offer_OInv hcur hos (hadj nb (List.mem_cons_self _ _)))
      (fun p hp => hadj p (List.mem_cons_of_mem _ hp))

theorem offerFold_preserve {t : GridPoint} {closedS : List (Int × Int)}
    {current : PathNode} (hcur : nodeOK t current) :
    ∀ (nbs : List (Int × Int)) (os : List PathNode), OInv t closedS os →
      (∀ nb ∈ nbs, nb ∈ adjacentCells (posOf current)) →
      ∀ (q : Int × Int) (v : Nat), (∃ n ∈ os, posOf n = q ∧ n.g ≤ v) →
      ∃ n ∈ nbs.foldl (offerNeighbor t emptyGrid [] closedS current) os,
        posOf n = q ∧ n.g ≤ v := by
  intro nbs
  induction nbs with
  | nil => intro os _ _ q v hw; exact hw
  | cons nb rest ih =>
    intro os hos hadj q v hw
    rw [List.foldl_cons]
    exact ih _ (offer_OInv hcur hos (hadj nb (List.mem_cons_self _ _)))
      (fun p hp => hadj p (List.mem_cons_of_mem _ hp)) q v
      (offer_preserve hos.2.1 hw)

theorem offerFold_success {t : GridPoint} {closedS : List (Int × Int)}
    {current : PathNode} (hcur : nodeOK t current) :
    ∀ (nbs : List (Int × Int)) (os : List PathNode), OInv t closedS os →
      (∀ nb ∈ nbs, nb ∈ adjacentCells (posOf current)) →
      ∀ q ∈ nbs, q ∉ closedS → isWalkable q.1 q.2 emptyGrid [] false = true →
      ∃ n ∈ nbs.foldl (offerNeighbor t emptyGrid [] closedS current) os,
        posOf n = q ∧ n.g ≤ current.g + 1 := by
  intro nbs
  induction nbs with
  | nil => intro os _ _ q hq; cases hq
  | cons nb rest ih =>
    intro os hos hadj q hq hqc hqw
    rw [List.foldl_cons]
    rcases List.mem_cons.mp hq with rfl | hq
    · exact offerFold_preserve hcur rest _
        (offer_OInv hcur hos (hadj q (List.mem_cons_self _ _)))
        (fun p hp => hadj p (List.mem_cons_of_mem _ hp)) q (current.g + 1)
        (offer_success hqc hqw)
    · exact ih _ (offer_OInv hcur hos (hadj nb (List.mem_cons_self _ _)))
        (fun p hp => hadj p (List.mem_cons_of_mem _ hp)) q hq hqc hqw

theorem mem_eraseIdx_of_ne_get! :
    ∀ (l : List PathNode) (k : Nat) {n : PathNode},
      n ∈ l → posOf n ≠ posOf (l.get! k) → n ∈ l.eraseIdx k
  | [], _, _, hn, _ => absurd hn (List.not_mem_nil _)
  | a :: rest, 0, n, hn, hne => by
      rcases List.mem_cons.mp hn with rfl | hn
      · exact absurd rfl hne
      · simpa using hn
  | a :: rest, k + 1, n, hn, hne => by
      rcases List.mem_cons.mp hn with rfl | hn
      · exact List.mem_cons_self _ _
      · exact List.mem_cons_of_mem _ (mem_eraseIdx_of_ne_get! rest k hn hne)

theorem nodup_map_eraseIdx {l : List PathNode} (k : Nat)
    (h : (l.map posOf).Nodup) : ((l.eraseIdx k).map posOf).Nodup :=
  List.Nodup.sublist (List.Sublist.map posOf (List.eraseIdx_sublist l k)) h

theorem eraseIdx_pos_ne :
    ∀ (l : List PathNode) (k : Nat), k < l.length → (l.map posOf).Nodup →
      ∀ n ∈ l.eraseIdx k, posOf n ≠ posOf (l.get! k)
  | [], k, hk, _ => by cases (by simpa using hk : k < 0)
  | a :: rest, 0, _, hnd => by
      intro n hn
      rw [List.map_cons, List.nodup_cons] at hnd
      have hn' : n ∈ rest := by simpa using hn
      intro hcon
      exact hnd.1 (hcon ▸ List.mem_map_of_mem posOf hn')
  | a :: rest, k + 1, hk, hnd => by
      intro n hn
      rw [List.map_cons, List.nodup_cons] at hnd
      have hk' : k < rest.length := by simpa using hk
      rcases List.mem_cons.mp hn with rfl | hn
      · intro hcon
        exact hnd.1 (hcon ▸ List.mem_map_of_mem posOf (pathNode_get!_mem rest k hk'))
      · exact eraseIdx_pos_ne rest k hk' hnd.2 n hn

theorem closed_card_le {t : GridPoint} {closedS : List (Int × Int)}
    (hnd : closedS.Nodup) (hB : ∀ p ∈ closedS, inB p)
    (htB : inB (t.col, t.row)) (ht : (t.col, t.row) ∉ closedS) :
    closedS.length ≤ 194 := by
  classical
  have hsub : closedS.toFinset ⊆
      ((Finset.Icc (0 : Int) 14) ×ˢ (Finset.Icc (0 : Int) 12)).erase
        (t.col, t.row) := by
    intro p hp
    rw [List.mem_toFinset] at hp
    refine Finset.mem_erase.mpr ⟨?_, ?_⟩
    · intro hpt
      exact ht (hpt ▸ hp)
    · obtain ⟨h1, h2, h3, h4⟩ := hB p hp
      have h2' : p.1 < 15 := h2
      have h4' : p.2 < 13 := h4
      refine Finset.mem_product.mpr ⟨?_, ?_⟩ <;> rw [Finset.mem_Icc] <;>
        constructor <;> omega
  have hcard := Finset.card_le_card hsub
  rw [List.toFinset_card_of_nodup hnd] at hcard
  have htmem : ((t.col, t.row) : Int × Int) ∈
      (Finset.Icc (0 : Int) 14) ×ˢ (Finset.Icc (0 : Int) 12) := by
    obtain ⟨h1, h2, h3, h4⟩ := htB
    have h2' : t.col < 15 := h2
    have h4' : t.row < 13 := h4
    refine Finset.mem_product.mpr ⟨?_, ?_⟩ <;> rw [Finset.mem_Icc] <;>
      constructor <;> omega
  rw [Finset.card_erase_of_mem htmem, Finset.card_product] at hcard
  have hc1 : (Finset.Icc (0 : Int) 14).card = 15 := by rw [Int.card_Icc]; rfl
  have hc2 : (Finset.Icc (0 : Int) 12).card = 13 := by rw [Int.card_Icc]; rfl
  rw [hc1, hc2] at hcard
  omega

theorem step_AInv {t : GridPoint} {l : List PathNode}
    {closedS : List (Int × Int)} (hinv : AInv t l closedS) (hne : l ≠ [])
    (hguard : ¬((l.get! (lowestFIndex l)).x = t.col ∧
      (l.get! (lowestFIndex l)).y = t.row)) :
    AInv t
      ((adjacentCells (posOf (l.get! (lowestFIndex l)))).foldl
        (offerNeighbor t emptyGrid []
          (posOf (l.get! (lowestFIndex l)) :: closedS)
          (l.get! (lowestFIndex l)))
        (l.eraseIdx (lowestFIndex l)))
      (posOf (l.get! (lowestFIndex l)) :: closedS) := by
  set k := lowestFIndex l with hk
  set c := l.get! k with hc
  have hklt : k < l.length := lowestFIndex_lt l hne
  have hcmem : c ∈ l := pathNode_get!_mem l k hklt
  have hcOK : nodeOK t c := hinv.nodes c hcmem
  have hcNC : posOf c ∉ closedS := hinv.notClosed c hcmem
  have hcB : inB (posOf c) := nodeOK_inB hcOK
  have hcg : c.g = md (posOf c) := pop_g_eq hinv c hcmem (lowestFIndex_min l hne)
  have hOInv : OInv t (posOf c :: closedS) (l.eraseIdx k) := by
    refine ⟨?_, nodup_map_eraseIdx k hinv.distinct, ?_⟩
    · intro n hn
      exact hinv.nodes n (List.eraseIdx_subset _ _ hn)
    · intro n hn
      simp only [List.mem_cons, not_or]
      exact ⟨eraseIdx_pos_ne l k hklt hinv.distinct n hn,
        hinv.notClosed n (List.eraseIdx_subset _ _ hn)⟩
  have hOInv' := offerFold_OInv hcOK (adjacentCells (posOf c))
    (l.eraseIdx k) hOInv (fun _ h => h)
  refine ⟨hOInv'.1, hOInv'.2.1, hOInv'.2.2, ?_, ?_, ?_, ?_, ?_⟩
  · exact List.nodup_cons.mpr ⟨hcNC, hinv.closedNodup⟩
  · intro p hp
    rcases List.mem_cons.mp hp with rfl | hp
    · exact hcB
    · exact hinv.closedInB p hp
  · intro p hp q hq hqB hqnc
    rcases List.mem_cons.mp hp with rfl | hp
    · have hqw : isWalkable q.1 q.2 emptyGrid [] false = true :=
        (walkable_empty q.1 q.2).mpr hqB
      obtain ⟨n, hn, hpos, hg⟩ := offerFold_success hcOK
        (adjacentCells (posOf c)) (l.eraseIdx k) hOInv (fun _ h => h)
        q hq hqnc hqw
      rw [hcg] at hg
      exact ⟨n, hn, hpos, hg⟩
    · have hqnc' : q ∉ closedS := fun h => hqnc (List.mem_cons_of_mem _ h)
      obtain ⟨n0, hn0, hpos0, hg0⟩ := hinv.frontier p hp q hq hqB hqnc'
      have hqnec : q ≠ posOf c := fun h => hqnc (h ▸ List.mem_cons_self _ _)
      have hne0 : posOf n0 ≠ posOf c := by rw [hpos0]; exact hqnec
      exact offerFold_preserve hcOK (adjacentCells (posOf c)) (l.eraseIdx k)
        hOInv (fun _ h => h) q (md p + 1)
        ⟨n0, mem_eraseIdx_of_ne_get! l k hn0 hne0, hpos0, hg0⟩
  · rcases hinv.start with hs | ⟨n, hn, hpos, hg⟩
    · exact Or.inl (List.mem_cons_of_mem _ hs)
    · by_cases hc0 : posOf c = ((0 : Int), (0 : Int))
      · exact Or.inl (by rw [← hc0]; exact List.mem_cons_self _ _)
      · refine Or.inr ?_
        have hne0 : posOf n ≠ posOf c := by
          rw [hpos]; exact fun h => hc0 h.symm
        exact offerFold_preserve hcOK (adjacentCells (posOf c)) (l.eraseIdx k)
          hOInv (fun _ h => h) _ 0
          ⟨n, mem_eraseIdx_of_ne_get! l k hn hne0, hpos, hg⟩
  · intro hmem
    rcases List.mem_cons.mp hmem with h | h
    · exact hguard ⟨(congrArg Prod.fst h).symm, (congrArg Prod.snd h).symm⟩
    · exact hinv.targetOpen h

theorem findPathLoop_optimal (t : GridPoint) (htB : inB (t.col, t.row)) :
    ∀ (fuel : Nat) (openS : List PathNode) (closedS : List (Int × Int)),
      AInv t openS closedS → 195 ≤ closedS.length + fuel →
      ∃ path, findPathLoop t emptyGrid [] fuel openS closedS = some path ∧
        path.length = md (t.col, t.row) + 1 := by
  intro fuel
  induction fuel with
  | zero =>
    intro openS closedS hinv hbud
    have hle := closed_card_le hinv.closedNodup hinv.closedInB htB hinv.targetOpen
    exact absurd hbud (by omega)
  | succ fuel ih =>
    intro openS closedS hinv hbud
    obtain ⟨w, hw, -, -⟩ := ainv_witness hinv (t.col, t.row) htB hinv.targetOpen
    obtain ⟨o, os, rfl⟩ : ∃ o os, openS = o :: os := by
      cases openS with
      | nil => cases hw
      | cons o os => exact ⟨o, os, rfl⟩
    have hne : (o :: os) ≠ [] := by simp
    simp only [findPathLoop]
    set c := (o :: os).get! (lowestFIndex (o :: os)) with hcdef
    have hklt := lowestFIndex_lt (o :: os) hne
    have hcmem : c ∈ o :: os := pathNode_get!_mem _ _ hklt
    by_cases hguard : c.x = t.col ∧ c.y = t.row
    · rw [if_pos hguard]
      refine ⟨(reconstruct c).reverse, rfl, ?_⟩
      rw [List.length_reverse, nodeOK_len (hinv.nodes c hcmem)]
      have hcg : c.g = md (posOf c) :=
        pop_g_eq hinv c hcmem (lowestFIndex_min _ hne)
      have hpos : posOf c = (t.col, t.row) := by
        rw [Prod.ext_iff]
        exact ⟨hguard.1, hguard.2⟩
      rw [hcg, hpos]
    · rw [if_neg hguard]
      have hstep := step_AInv hinv hne hguard
      have hcNC : posOf c ∉ closedS := hinv.notClosed c hcmem
      have hcNC' : (c.x, c.y) ∉ closedS := hcNC
      have hclosedAdd : closedAdd closedS (c.x, c.y) = (c.x, c.y) :: closedS := by
        unfold closedAdd
        rw [if_neg hcNC']
      rw [hclosedAdd]
      exact ih _ _ hstep (by rw [List.length_cons]; omega)

/-- Claim C6: on the all-EMPTY grid with no bombs, `findPath` from (0,0)
to any in-bounds cell (dx, dy) succeeds, and the returned path has exactly
|dx| + |dy| + 1 cells — it is Manhattan-optimal. -/

theorem C6_manhattan_optimal (dx dy : Int)
    (hx0 : 0 ≤ dx) (hx1 : dx < GRID_COLS) (hy0 : 0 ≤ dy) (hy1 : dy < GRID_ROWS) :
    ∃ path, findPath ⟨0, 0⟩ ⟨dx, dy⟩ emptyGrid [] = some path ∧
      path.length = dx.natAbs + dy.natAbs + 1 := by
  have htB : inB ((⟨dx, dy⟩ : GridPoint).col, (⟨dx, dy⟩ : GridPoint).row) :=
    ⟨hx0, hx1, hy0, hy1⟩
  have hinit : AInv ⟨dx, dy⟩
      [PathNode.mk 0 0 0 (heuristic ⟨0, 0⟩ ⟨dx, dy⟩)
        (heuristic ⟨0, 0⟩ ⟨dx, dy⟩) none] [] := by
    refine ⟨?_, ?_, ?_, ?_, ?_, ?_, ?_, ?_⟩
    · intro n hn
      rcases List.mem_singleton.mp hn with rfl
      exact ⟨rfl, (Nat.zero_add _).symm, rfl, rfl, rfl⟩
    · simp
    · intro n _
      exact List.not_mem_nil _
    · exact List.nodup_nil
    · intro p hp
      cases hp
    · intro p hp
      cases hp
    · exact Or.inr ⟨_, List.mem_singleton_self _, rfl, le_refl 0⟩
    · exact List.not_mem_nil _
  obtain ⟨path, heq, hlen⟩ := findPathLoop_optimal ⟨dx, dy⟩ htB 500
    [PathNode.mk 0 0 0 (heuristic ⟨0, 0⟩ ⟨dx, dy⟩)
      (heuristic ⟨0, 0⟩ ⟨dx, dy⟩) none] [] hinit (by norm_num)
  exact ⟨path, heq, hlen⟩

theorem C6_manhattan_optimal_witness :
    ∃ path, findPath ⟨0, 0⟩ ⟨3, 2⟩ emptyGrid [] = some path ∧ path.length = 6 :=
  C6_manhattan_optimal 3 2 (by decide) (by decide) (by decide) (by decide)

end Bomberman
